import Mathlib

/-!
Verification development for the zhuguosha card-game rules engine.

The definitions below are a shallow embedding of the engine-relevant Python
modules (src/backend/card/card.py, src/backend/deck/deck.py,
src/backend/player/player.py, src/backend/player/equipment_manager.py,
src/backend/player_controller/player_controller.py,
src/backend/game_controller/card_effect_handler.py together with
config/enums.py and config/card_properties.py).  Pure helpers become Lean
functions; the mutable game objects become explicit state records that every
operation threads.  The external Decision Oracle (the `Control` classes) is
abstracted as a record of decision functions; the random `shuffle` is a
function parameter, constrained to be a permutation where a statement needs
it.  Hit points are carried as `Int`, mirroring Python's signed integers, so
that the clamping performed by `max(0, ...)` / `min(max_hp, ...)` remains
visible.  Recursive protocols (the WuXieKeJi negation chain and the JueDou
duel loop) are written with an explicit fuel argument; the public wrappers
instantiate the fuel with the relevant finite card supply plus one, which the
stability lemmas show is never exhausted.
-/

namespace ZGS

/-- config/enums.py: CardSuit. -/
inductive CardSuit where
  | hearts | diamonds | clubs | spades
deriving DecidableEq, Repr

/-- config/enums.py: CardName, restricted to the card names that the
resolution engine's handler factory and the claims under study mention. -/
inductive CardName where
  | sha | shan | tao | jueDou | wuXieKeJi
  | zhuGeLianNu | qingGangJian | renWangDun | jinGongMa | fangYuMa
deriving DecidableEq, Repr

/-- config/enums.py: CardType. -/
inductive CardType where
  | basic | trick | equipment
deriving DecidableEq, Repr

/-- config/enums.py: TargetType.  `selfOnly` renders TargetType.SELF. -/
inductive TargetType where
  | attackable | dis1 | allOthers | selfOnly
deriving DecidableEq, Repr

/-- config/card_properties.py: card_type field of CARD_PROPERTIES. -/
def cardTypeOf : CardName → CardType
  | .sha => .basic
  | .shan => .basic
  | .tao => .basic
  | .jueDou => .trick
  | .wuXieKeJi => .trick
  | .zhuGeLianNu => .equipment
  | .qingGangJian => .equipment
  | .renWangDun => .equipment
  | .jinGongMa => .equipment
  | .fangYuMa => .equipment

/-- config/card_properties.py: target_type field of CARD_PROPERTIES. -/
def targetTypeOf : CardName → TargetType
  | .sha => .attackable
  | .shan => .selfOnly
  | .tao => .selfOnly
  | .jueDou => .allOthers
  | .wuXieKeJi => .selfOnly
  | .zhuGeLianNu => .selfOnly
  | .qingGangJian => .selfOnly
  | .renWangDun => .selfOnly
  | .jinGongMa => .selfOnly
  | .fangYuMa => .selfOnly

/-- config/card_properties.py: attack_range field of CARD_PROPERTIES. -/
def attackRangeOf : CardName → Nat
  | .qingGangJian => 2
  | _ => 1

/-- backend/card/card.py: class Card.  The mutable regarded-as alias is not
modelled: no claim mentions it and it never affects card movement. -/
structure Card where
  suit : CardSuit
  rank : Nat
  name : CardName
deriving DecidableEq, Repr

/-- Card.is_equipment. -/
def Card.isEquipment (c : Card) : Bool := cardTypeOf c.name == CardType.equipment

/-- config/enums.py: PlayerIdentity. -/
inductive PlayerIdentity where
  | lord | loyalist | rebel | traitor
deriving DecidableEq, Repr

/-- config/enums.py: PlayerStatus. -/
inductive PlayerStatus where
  | alive | dead
deriving DecidableEq, Repr

/-- The four slots managed by backend/player/equipment_manager.py. -/
inductive Slot where
  | weapon | armor | horsePlus | horseMinus
deriving DecidableEq, Repr

/-- backend/player/equipment_manager.py: the four equipment slot fields. -/
structure Equipment where
  weapon : Option Card
  armor : Option Card
  horsePlus : Option Card
  horseMinus : Option Card
deriving DecidableEq, Repr

/-- An empty equipment area. -/
def Equipment.empty : Equipment := ⟨none, none, none, none⟩

/-- EquipmentManager.get_slot. -/
def Equipment.getSlot (e : Equipment) : Slot → Option Card
  | .weapon => e.weapon
  | .armor => e.armor
  | .horsePlus => e.horsePlus
  | .horseMinus => e.horseMinus

/-- EquipmentManager.set_slot. -/
def Equipment.setSlot (e : Equipment) : Slot → Option Card → Equipment
  | .weapon, c => { e with weapon := c }
  | .armor, c => { e with armor := c }
  | .horsePlus, c => { e with horsePlus := c }
  | .horseMinus, c => { e with horseMinus := c }

/-- EquipmentManager.CARD_TO_SLOT. -/
def cardToSlot : CardName → Option Slot
  | .qingGangJian => some .weapon
  | .zhuGeLianNu => some .weapon
  | .renWangDun => some .armor
  | .jinGongMa => some .horseMinus
  | .fangYuMa => some .horsePlus
  | _ => none

/-- The equipment cards present, in the fixed slot order that
EquipmentManager.get_all_equipment / discard_all iterate. -/
def Equipment.cards (e : Equipment) : List Card :=
  (e.weapon.toList) ++ (e.armor.toList) ++ (e.horsePlus.toList) ++ (e.horseMinus.toList)

/-- backend/player/player.py: class Player, the engine-visible state.
Skills and the runtime_state scratch dictionary are not modelled: no claim
under study involves an attached skill. -/
structure Player where
  playerId : Nat
  identity : PlayerIdentity
  status : PlayerStatus
  currentHp : Int
  maxHp : Int
  handCards : List Card
  equipment : Equipment
  shaUsedThisTurn : Bool
  lastDamageSource : Option Nat
deriving DecidableEq, Repr

/-- Player.is_alive. -/
def Player.isAlive (p : Player) : Bool := p.status == PlayerStatus.alive

/-- backend/deck/deck.py: class Deck (draw pile `cards` plus discard pile). -/
structure Deck where
  cards : List Card
  discardPile : List Card
deriving DecidableEq, Repr

/-- Deck.discard_card (the regarded-as reset touches no movement). -/
def Deck.discardCard (d : Deck) (c : Card) : Deck :=
  { d with discardPile := d.discardPile ++ [c] }

/-- Deck.draw_card, with the random in-place shuffle abstracted as a list
function.  Empty draw pile with a non-empty discard pile: the discard pile is
copied, cleared and shuffled into a new draw pile; both empty: no card. -/
def Deck.drawCard (shuffle : List Card → List Card) (d : Deck) :
    Option Card × Deck :=
  let d' : Deck :=
    if d.cards.isEmpty && !d.discardPile.isEmpty then
      { cards := shuffle d.discardPile, discardPile := [] }
    else d
  match d'.cards with
  | [] => (none, d')
  | c :: rest => (some c, { d' with cards := rest })

/-- Deck.draw_cards: draw up to `count` cards, stopping at exhaustion. -/
def Deck.drawCards (shuffle : List Card → List Card) :
    Nat → Deck → List Card × Deck
  | 0, d => ([], d)
  | n + 1, d =>
    match Deck.drawCard shuffle d with
    | (none, d') => ([], d')
    | (some c, d') =>
      let (cs, d'') := Deck.drawCards shuffle n d'
      (c :: cs, d'')

/-- The whole engine-owned state: the seated player roster plus the deck. -/
structure GState where
  players : List Player
  deck : Deck
deriving DecidableEq, Repr

/-- PlayerController.get_player: first player carrying the id. -/
def getPlayer (ps : List Player) (pid : Nat) : Option Player :=
  ps.find? (fun p => p.playerId == pid)

/-- Apply `f` to the first player carrying `pid`, i.e. to the same object
that PlayerController.get_player would have returned. -/
def updateFirst : List Player → Nat → (Player → Player) → List Player
  | [], _, _ => []
  | p :: ps, pid, f =>
    if p.playerId == pid then f p :: ps else p :: updateFirst ps pid f

/-- Player.take_damage_default: hp is clamped below at 0 by max(0, ...);
a provided source player id is recorded as the last damage source. -/
def takeDamageDefault (p : Player) (damage : Int) (src : Option Nat) : Player :=
  { p with
    currentHp := max 0 (p.currentHp - damage)
    lastDamageSource := match src with | some s => some s | none => p.lastDamageSource }

/-- Player.heal: hp is clamped above at max_hp by min(max_hp, ...). -/
def healPlayer (p : Player) (amount : Int) : Player :=
  { p with currentHp := min p.maxHp (p.currentHp + amount) }

/-- EquipmentManager.equip: refuse non-equipment and unmapped names, discard
an incumbent first, then set the slot.  Returns the success flag. -/
def equipOp (card : Card) (e : Equipment) (d : Deck) : Bool × Equipment × Deck :=
  if !card.isEquipment then (false, e, d)
  else
    match cardToSlot card.name with
    | none => (false, e, d)
    | some slot =>
      let d' := match e.getSlot slot with
        | some old => d.discardCard old
        | none => d
      (true, e.setSlot slot (some card), d')

/-- The Decision Oracle boundary (backend/control): each query the engine
issues is answered by one of these functions.  Card-drawing randomness is the
`shuffle` field.  When a response query is answered positively the engine
consumes the first matching card of the queried hand; which equally-named
card a concrete Control would pick never affects the properties below. -/
structure Oracle where
  shuffle : List Card → List Card
  useTao : Nat → Bool
  useShan : Nat → Bool
  useSha : Nat → Nat → Bool
  useWuXie : Nat → Bool → Bool
  selectDiscard : List Card → Nat → List Card

/-- Player.ask_use_card specialised by name: the hand is filtered for the
requested card name; with no candidate the answer is an immediate decline;
otherwise the oracle decides and, on use, the chosen card leaves the hand. -/
def askUseNamed (decide' : Bool) (name : CardName) (p : Player) :
    Option Card × Player :=
  match p.handCards.filter (fun c => c.name == name) with
  | [] => (none, p)
  | c :: _ =>
    if decide' then (some c, { p with handCards := p.handCards.erase c })
    else (none, p)

/-- ask_use_card routed through get_player, updating the roster. -/
def askUseNamedById (decide' : Bool) (name : CardName) (ps : List Player)
    (pid : Nat) : Option Card × List Player :=
  match getPlayer ps pid with
  | none => (none, ps)
  | some p =>
    match askUseNamed decide' name p with
    | (none, _) => (none, ps)
    | (some c, p') => (some c, updateFirst ps pid (fun _ => p'))

/-- PlayerController.game_over. -/
def gameOver (ps : List Player) : Bool :=
  let alive := ps.filter Player.isAlive
  if alive.length ≤ 1 then true
  else
    match ps.find? (fun p => p.identity == PlayerIdentity.lord) with
    | none => false
    | some lord =>
      if !lord.isAlive then true
      else
        let aliveRebels := ps.filter
          (fun p => p.identity == PlayerIdentity.rebel && p.isAlive)
        let aliveTraitors := ps.filter
          (fun p => p.identity == PlayerIdentity.traitor && p.isAlive)
        aliveRebels.isEmpty && aliveTraitors.isEmpty

/-- The outcomes PlayerController.get_winner reports through its strings. -/
inductive Winner where
  | traitorWins | rebelsWin | lordLoyalistsWin | draw
deriving DecidableEq, Repr

/-- PlayerController.get_winner: None while the game is running; otherwise
the first matching branch: lone surviving traitor, then dead lord → rebels,
then lord alive with rebels and traitors gone → lord side, else a draw. -/
def getWinner (ps : List Player) : Option Winner :=
  if !gameOver ps then none
  else
    let alive := ps.filter Player.isAlive
    let lord? := ps.find? (fun p => p.identity == PlayerIdentity.lord)
    let loneTraitor := match alive with
      | [w] => w.identity == PlayerIdentity.traitor
      | _ => false
    if loneTraitor then some .traitorWins
    else
      match lord? with
      | some lord =>
        if !lord.isAlive then some .rebelsWin
        else
          let aliveRebels := ps.filter
            (fun p => p.identity == PlayerIdentity.rebel && p.isAlive)
          let aliveTraitors := ps.filter
            (fun p => p.identity == PlayerIdentity.traitor && p.isAlive)
          if aliveRebels.isEmpty && aliveTraitors.isEmpty then
            some .lordLoyalistsWin
          else some .draw
      | none => some .draw

/-- PlayerController.calculate_distance: positions in the living seating
order, the smaller of the two ring distances, the attacker's -1 horse
applied under a floor of 1, the target's +1 horse added afterwards, and a
final floor of 1. -/
def calculateDistance (ps : List Player) (fromId toId : Nat) : Nat :=
  if fromId = toId then 1
  else
    let alive := ps.filter Player.isAlive
    if alive.length ≤ 1 then 0
    else
      match alive.findIdx? (fun p => p.playerId == fromId),
            alive.findIdx? (fun p => p.playerId == toId) with
      | some fi, some ti =>
        let n := alive.length
        let cw := (ti + n - fi) % n
        let ccw := (fi + n - ti) % n
        let base := min cw ccw
        let base :=
          match getPlayer ps fromId, getPlayer ps toId with
          | some fp, some tp =>
            let b1 := if fp.equipment.horseMinus.isSome then max 1 (base - 1) else base
            if tp.equipment.horsePlus.isSome then b1 + 1 else b1
          | _, _ => base
        max 1 base
      | _, _ => 0

/-- PlayerController.get_attack_range: 1 bare-handed, else the weapon's
configured attack range. -/
def getAttackRange (ps : List Player) (pid : Nat) : Nat :=
  match getPlayer ps pid with
  | none => 1
  | some p =>
    match p.equipment.weapon with
    | some w => attackRangeOf w.name
    | none => 1

/-- The named target sets PlayerController.get_targets produces. -/
structure Targets where
  attackable : List Nat
  allOthers : List Nat
  dis1 : List Nat
  selfIds : List Nat
deriving DecidableEq, Repr

/-- PlayerController.get_targets. -/
def getTargets (ps : List Player) (pid : Nat) : Targets :=
  let others := (ps.filter
    (fun p => p.isAlive && !(p.playerId == pid))).map Player.playerId
  let range := getAttackRange ps pid
  { attackable := others.filter (fun t => calculateDistance ps pid t ≤ range)
    allOthers := others
    dis1 := others.filter (fun t => calculateDistance ps pid t = 1)
    selfIds := [pid] }

/-- Player.get_sha_limit: base 1, the repeating crossbow stands for no limit
through a huge value.  (Skill hooks: no skill is attached in this model.) -/
def getShaLimit (p : Player) : Nat :=
  if p.equipment.weapon.any (fun w => w.name == CardName.zhuGeLianNu) then
    10 ^ 9
  else 1

/-- Player._get_targets_for_card: pick the list named by the card's target
type; every list except the ALL one is additionally stripped of the player
himself. -/
def getTargetsForCard (p : Player) (card : Card) (ts : Option Targets) :
    List Nat :=
  match ts with
  | none => []
  | some t =>
    let base :=
      match targetTypeOf card.name with
      | .attackable => t.attackable
      | .allOthers => t.allOthers
      | .dis1 => t.dis1
      | .selfOnly => [p.playerId]
    if targetTypeOf card.name = .selfOnly then [p.playerId]
    else if targetTypeOf card.name = .allOthers then base
    else base.filter (fun x => !(x == p.playerId))

/-- Player._can_play_card, translated branch for branch.  Note that the
first branch gates on the attack-use flag alone, without testing that the
candidate card is a Sha. -/
def canPlayCard (p : Player) (card : Card) (ts : Option Targets) : Bool :=
  let limit := getShaLimit p
  if p.shaUsedThisTurn && limit ≤ 1 then false
  else if card.name == CardName.shan then false
  else if card.name == CardName.tao then p.currentHp < p.maxHp
  else if cardTypeOf card.name == CardType.equipment then true
  else if cardTypeOf card.name == CardType.trick then
    if card.name == CardName.wuXieKeJi then false
    else if targetTypeOf card.name == TargetType.selfOnly then true
    else !(getTargetsForCard p card ts).isEmpty
  else
    match ts with
    | some _ =>
      if targetTypeOf card.name == TargetType.selfOnly then true
      else !(getTargetsForCard p card ts).isEmpty
    | none => true

/-- CardEffectHandler._handle_death_consequences: when the victim recorded a
living killer, a lord that killed a loyalist forfeits his whole hand and
equipment, and a rebel's killer draws three cards unless the game is already
decided. -/
def deathConsequences (o : Oracle) (ps : List Player) (d : Deck)
    (victimId : Nat) : List Player × Deck :=
  match getPlayer ps victimId with
  | none => (ps, d)
  | some victim =>
    match victim.lastDamageSource with
    | none => (ps, d)
    | some killerId =>
      match getPlayer ps killerId with
      | none => (ps, d)
      | some killer =>
        if !killer.isAlive then (ps, d)
        else if victim.identity == PlayerIdentity.loyalist &&
            killer.identity == PlayerIdentity.lord then
          let d₁ := killer.handCards.foldl Deck.discardCard d
          let ps₁ := updateFirst ps killerId (fun p => { p with handCards := [] })
          let d₂ := killer.equipment.cards.foldl Deck.discardCard d₁
          let ps₂ := updateFirst ps₁ killerId
            (fun p => { p with equipment := Equipment.empty })
          (ps₂, d₂)
        else if victim.identity == PlayerIdentity.rebel then
          if gameOver ps then (ps, d)
          else
            let (drawn, d') := Deck.drawCards o.shuffle 3 d
            (updateFirst ps killerId
              (fun p => { p with handCards := p.handCards ++ drawn }), d')
        else (ps, d)

/-- Player.die: status becomes dead, hp 0, the reward/penalty consequences
fire, then the hand and every equipment card move to the discard pile. -/
def dieOp (o : Oracle) (s : GState) (victimId : Nat) : GState :=
  match getPlayer s.players victimId with
  | none => s
  | some _ =>
    let ps₁ := updateFirst s.players victimId
      (fun p => { p with status := PlayerStatus.dead, currentHp := 0 })
    let (ps₂, d₂) := deathConsequences o ps₁ s.deck victimId
    match getPlayer ps₂ victimId with
    | none => { players := ps₂, deck := d₂ }
    | some v =>
      let d₃ := v.handCards.foldl Deck.discardCard d₂
      let ps₃ := updateFirst ps₂ victimId (fun p => { p with handCards := [] })
      let d₄ := v.equipment.cards.foldl Deck.discardCard d₃
      let ps₄ := updateFirst ps₃ victimId
        (fun p => { p with equipment := Equipment.empty })
      { players := ps₄, deck := d₄ }

/-- CardEffectHandler._handle_dying_process: only the dying player himself is
asked for a Heal card; on use the card leaves the hand, 1 hp is restored and
the card is discarded; otherwise the player dies and the game-over check runs
at once, latching the game-ended flag. -/
def handleDyingProcess (o : Oracle) (s : GState) (g : Bool) (dyingId : Nat) :
    GState × Bool :=
  match getPlayer s.players dyingId with
  | none => (s, g)
  | some p =>
    if p.currentHp > 0 then (s, g)
    else
      match askUseNamed (o.useTao p.playerId) CardName.tao p with
      | (some taoC, p') =>
        let ps₁ := updateFirst s.players dyingId (fun _ => p')
        let ps₂ := updateFirst ps₁ dyingId (fun q => healPlayer q 1)
        ({ players := ps₂, deck := s.deck.discardCard taoC }, g)
      | (none, _) =>
        let s' := dieOp o s dyingId
        (s', g || gameOver s'.players)

/-- The Counter cards (WuXieKeJi) of a hand. -/
def counterCards (p : Player) : List Card :=
  p.handCards.filter (fun c => c.name == CardName.wuXieKeJi)

/-- Total Counter supply over the roster; the negation chain consumes one
per recursive step, so this bounds its depth. -/
def totalCounters (ps : List Player) : Nat :=
  (ps.map (fun p => (counterCards p).length)).sum

/-- Player.ask_use_wu_xie_ke_ji for one polled player: decline with no
Counter in hand, otherwise the oracle decides. -/
def askCounterOne (o : Oracle) (pol : Bool) (p : Player) : Option Card :=
  match counterCards p with
  | [] => none
  | c :: _ => if o.useWuXie p.playerId pol then some c else none

/-- The poll loop of CardEffectHandler._ask_wu_xie_ke_ji: the first player in
the (already rotated) seating order that answers with a Counter card. -/
def pollCounter (o : Oracle) (pol : Bool) : List Player → Option (Nat × Card)
  | [] => none
  | p :: ps =>
    match askCounterOne o pol p with
    | some c => some (p.playerId, c)
    | none => pollCounter o pol ps

/-- CardEffectHandler._ask_wu_xie_ke_ji with explicit fuel: the living
players are polled starting from `userId`; a played Counter leaves that hand,
is discarded, flips the polarity and restarts the poll from its player; a
full silent pass returns the in-flight polarity.  The played Counters are
also returned, in play order. -/
def askWuXieAux (o : Oracle) : Nat → GState → Nat → Bool → Bool × GState × List Card
  | 0, s, _, pol => (pol, s, [])
  | fuel + 1, s, userId, pol =>
    let alive := s.players.filter Player.isAlive
    if alive.isEmpty then (pol, s, [])
    else
      match alive.findIdx? (fun p => p.playerId == userId) with
      | none => (pol, s, [])
      | some ui =>
        let order := alive.drop ui ++ alive.take ui
        match pollCounter o pol order with
        | none => (pol, s, [])
        | some (pid, c) =>
          let ps' := updateFirst s.players pid
            (fun q => { q with handCards := q.handCards.erase c })
          let r := askWuXieAux o fuel ⟨ps', s.deck.discardCard c⟩ pid (!pol)
          (r.1, r.2.1, c :: r.2.2)

/-- The negation chain entry point; the Counter supply bounds the depth. -/
def askWuXieKeJi (o : Oracle) (s : GState) (userId : Nat) (pol : Bool) :
    Bool × GState × List Card :=
  askWuXieAux o (totalCounters s.players + 1) s userId pol

/-- Total Attack-card supply over the roster; each duel round consumes one. -/
def totalSha (ps : List Player) : Nat :=
  (ps.map (fun p => (p.handCards.filter
    (fun c => c.name == CardName.sha)).length)).sum

/-- The outcome of a JueDou exchange. -/
structure DuelResult where
  state : GState
  gameEnded : Bool
  shaPlayed : List Card
  loserId : Nat
deriving Repr

/-- The decline arm of JueDouCardHandler.handle: the queried participant
takes 1 damage from the other, the Duel card is discarded, and a zero hp
triggers the dying process. -/
def duelDecline (o : Oracle) (card : Card) (s : GState) (g : Bool)
    (curId defId : Nat) : DuelResult :=
  let ps₂ := updateFirst s.players curId
    (fun q => takeDamageDefault q 1 (some defId))
  let s₂ : GState := ⟨ps₂, s.deck.discardCard card⟩
  match getPlayer ps₂ curId with
  | some t₂ =>
    if t₂.currentHp = 0 then
      let (s₃, g₃) := handleDyingProcess o s₂ g curId
      { state := s₃, gameEnded := g₃, shaPlayed := [], loserId := curId }
    else { state := s₂, gameEnded := g, shaPlayed := [], loserId := curId }
  | none => { state := s₂, gameEnded := g, shaPlayed := [], loserId := curId }

/-- The alternating query loop of JueDouCardHandler.handle, with explicit
fuel: the current asker either plays an Attack card (discarded; the roles
swap) or declines and loses.  Exhausted fuel acts as a forced decline, which
the supplied Attack-card supply bound keeps unreachable. -/
def duelLoopAux (o : Oracle) (card : Card) :
    Nat → GState → Bool → Nat → Nat → Nat → DuelResult
  | 0, s, g, curId, defId, _ => duelDecline o card s g curId defId
  | fuel + 1, s, g, curId, defId, round =>
    match askUseNamedById (o.useSha curId round) CardName.sha s.players curId with
    | (none, _) => duelDecline o card s g curId defId
    | (some c, ps') =>
      let r := duelLoopAux o card fuel ⟨ps', s.deck.discardCard c⟩ g
        defId curId (round + 1)
      { r with shaPlayed := c :: r.shaPlayed }

/-- The duel loop entry: the chosen target is queried first (round 1). -/
def duelRun (o : Oracle) (card : Card) (s : GState) (g : Bool)
    (targetId attackerId : Nat) : DuelResult :=
  duelLoopAux o card (totalSha s.players + 1) s g targetId attackerId 1

/-- JueDouCardHandler.handle: validate the target, run the negation chain
from the attacker with initial polarity `true`; a negated Duel is discarded
unresolved, otherwise the alternating loop decides a loser. -/
def jueDouHandle (o : Oracle) (s : GState) (g : Bool) (curId : Nat)
    (card : Card) (targets : List Nat) : GState × Bool :=
  match targets with
  | [] => (s, g)
  | targetId :: _ =>
    match getPlayer s.players targetId, getPlayer s.players curId with
    | some tp, some _ =>
      if !tp.isAlive then (s, g)
      else
        let (eff, s₁, _) := askWuXieKeJi o s curId true
        if !eff then ({ s₁ with deck := s₁.deck.discardCard card }, g)
        else
          let r := duelRun o card s₁ g targetId curId
          (r.state, r.gameEnded)
    | _, _ => (s, g)

/-- ShaCardHandler.handle: validate the target; a black Sha against RenWangDun
fizzles (discarded) unless the attacker wields QingGangJian; otherwise the
target may play a Dodge (both cards discarded) or takes 1 damage followed by
the dying check. -/
def shaHandle (o : Oracle) (s : GState) (g : Bool) (curId : Nat)
    (card : Card) (targets : List Nat) : GState × Bool :=
  match targets with
  | [] => (s, g)
  | targetId :: _ =>
    match getPlayer s.players targetId with
    | none => (s, g)
    | some tp =>
      if !tp.isAlive then (s, g)
      else
        let ignoreArmor :=
          match getPlayer s.players curId with
          | some ap => ap.equipment.weapon.any
              (fun w => w.name == CardName.qingGangJian)
          | none => false
        if !ignoreArmor &&
            tp.equipment.armor.any (fun a => a.name == CardName.renWangDun) &&
            (card.suit == CardSuit.spades || card.suit == CardSuit.clubs) then
          ({ s with deck := s.deck.discardCard card }, g)
        else
          match askUseNamedById (o.useShan targetId) CardName.shan
              s.players targetId with
          | (some shanC, ps') =>
            ({ players := ps',
               deck := (s.deck.discardCard card).discardCard shanC }, g)
          | (none, _) =>
            let d' := s.deck.discardCard card
            let ps₂ := updateFirst s.players targetId
              (fun q => takeDamageDefault q 1 (some curId))
            match getPlayer ps₂ targetId with
            | some t₂ =>
              if t₂.currentHp = 0 then
                handleDyingProcess o ⟨ps₂, d'⟩ g targetId
              else (⟨ps₂, d'⟩, g)
            | none => (⟨ps₂, d'⟩, g)

/-- TaoCardHandler.handle: self-only; restores 1 hp and is discarded. -/
def taoHandle (_o : Oracle) (s : GState) (g : Bool) (curId : Nat)
    (card : Card) (targets : List Nat) : GState × Bool :=
  match targets with
  | [] => (s, g)
  | targetId :: _ =>
    match getPlayer s.players targetId with
    | none => (s, g)
    | some tp =>
      if !tp.isAlive then (s, g)
      else if !(targetId == curId) then (s, g)
      else
        ({ players := updateFirst s.players targetId (fun q => healPlayer q 1),
           deck := s.deck.discardCard card }, g)

/-- EquipmentCardHandler.handle: self-only; routes to the equip event. -/
def equipmentHandle (_o : Oracle) (s : GState) (g : Bool) (curId : Nat)
    (card : Card) (targets : List Nat) : GState × Bool :=
  match targets with
  | [] => (s, g)
  | targetId :: _ =>
    match getPlayer s.players targetId with
    | none => (s, g)
    | some tp =>
      if !tp.isAlive then (s, g)
      else if !(targetId == curId) then (s, g)
      else
        let (_, e', d') := equipOp card tp.equipment s.deck
        ({ players := updateFirst s.players targetId
             (fun q => { q with equipment := e' }),
           deck := d' }, g)

/-- The hand-removal step of Player.play_card_default: the chosen card leaves
the playing player's hand before the effect handler runs. -/
def playedState (s : GState) (curId : Nat) (card : Card) : GState :=
  let removePlayed : Player → Player :=
    fun p => { p with handCards := p.handCards.erase card }
  { s with players := updateFirst s.players curId removePlayed }

/-- Playing a card from the hand: Player.play_card_default removes the chosen
card from the hand, then GameController._handle_card_effect dispatches on the
handler factory (CardEffectHandlerFactory.create_handler); a name without a
handler resolves to a logged no-op. -/
def playAndResolve (o : Oracle) (s : GState) (g : Bool) (curId : Nat)
    (card : Card) (targets : List Nat) : GState × Bool :=
  let s₀ : GState := playedState s curId card
  if card.name == CardName.sha then shaHandle o s₀ g curId card targets
  else if card.name == CardName.tao then taoHandle o s₀ g curId card targets
  else if card.name == CardName.jueDou then jueDouHandle o s₀ g curId card targets
  else if card.name == CardName.wuXieKeJi then (s₀, g)
  else if cardTypeOf card.name == CardType.equipment then
    equipmentHandle o s₀ g curId card targets
  else (s₀, g)

/-- Player.draw_card(count): cards drawn from the deck join the hand. -/
def drawCardsToHand (o : Oracle) (s : GState) (pid : Nat) (count : Nat) :
    GState :=
  let (cs, d') := Deck.drawCards o.shuffle count s.deck
  let addDrawn : Player → Player :=
    fun p => { p with handCards := p.handCards ++ cs }
  { players := updateFirst s.players pid addDrawn, deck := d' }

/-- The removal loop of Player.discard_card_default: each selected card still
present in the hand is removed and discarded. -/
def discardSelected : List Card → List Card → Deck → List Card × Deck
  | [], hand, d => (hand, d)
  | c :: rest, hand, d =>
    if hand.contains c then discardSelected rest (hand.erase c) (d.discardCard c)
    else discardSelected rest hand d

/-- Player.discard_card_default: nothing happens while the hand is within the
hp bound, otherwise the oracle picks the excess and the removal loop runs. -/
def discardPhase (o : Oracle) (s : GState) (pid : Nat) : GState :=
  match getPlayer s.players pid with
  | none => s
  | some p =>
    if (p.handCards.length : Int) ≤ p.currentHp then s
    else
      let cnt := ((p.handCards.length : Int) - p.currentHp).toNat
      let sel := o.selectDiscard p.handCards cnt
      let (hand', d') := discardSelected sel p.handCards s.deck
      let setHand : Player → Player := fun q => { q with handCards := hand' }
      { players := updateFirst s.players pid setHand, deck := d' }

/-- The proviso of the amended conservation claim: the player exists and
holds the played card, the card is of a kind the handler factory covers, and
the handler receives a living first target — the player himself for a Heal or
an equipment card (whose name must map to a slot), and, for a Duel, a seated
attacker and a roster with distinct seat ids. -/
def validPlay (s : GState) (curId : Nat) (card : Card)
    (targets : List Nat) : Prop :=
  (∃ p, getPlayer s.players curId = some p ∧ card ∈ p.handCards) ∧
  (card.name = CardName.sha ∨ card.name = CardName.tao ∨
    card.name = CardName.jueDou ∨ cardTypeOf card.name = CardType.equipment) ∧
  ∃ tid rest tp,
    targets = tid :: rest ∧
    getPlayer (playedState s curId card).players tid = some tp ∧
    tp.isAlive = true ∧
    ((card.name = CardName.tao ∨ cardTypeOf card.name = CardType.equipment) →
      tid = curId) ∧
    (cardTypeOf card.name = CardType.equipment →
      (cardToSlot card.name).isSome = true) ∧
    (card.name = CardName.jueDou →
      (∃ ap, getPlayer (playedState s curId card).players curId = some ap) ∧
      ((playedState s curId card).players.map Player.playerId).Nodup)

/-- A two-player scene for exercising conservation: seat 0 holds one Attack
card and nothing else blocks. -/
def c1sha : Card := { suit := .spades, rank := 7, name := .sha }

/-- A Heal card held by seat 0 in the conservation scene. -/
def c1tao : Card := { suit := .hearts, rank := 2, name := .tao }

/-- The conservation scene: two living seated players, a small draw pile and
one card already discarded. -/
def c1state : GState :=
  { players :=
      [ { playerId := 0, identity := .lord, status := .alive, currentHp := 2,
          maxHp := 4, handCards := [c1sha, c1tao], equipment := .empty,
          shaUsedThisTurn := false, lastDamageSource := none },
        { playerId := 1, identity := .rebel, status := .alive, currentHp := 3,
          maxHp := 3, handCards := [], equipment := .empty,
          shaUsedThisTurn := false, lastDamageSource := none } ],
    deck := { cards := [ { suit := .clubs, rank := 4, name := .shan },
                         { suit := .diamonds, rank := 9, name := .tao } ],
              discardPile := [ { suit := .hearts, rank := 13, name := .sha } ] } }

/-- A concrete hand for exercising Player._can_play_card. -/
def c4tao : Card := { suit := .hearts, rank := 3, name := .tao }

/-- A player who already used his Attack this turn (no crossbow, so the
per-turn limit is 1), is wounded, and holds a Heal card. -/
def c4player : Player :=
  { playerId := 0, identity := .lord, status := .alive, currentHp := 2,
    maxHp := 4, handCards := [c4tao], equipment := .empty,
    shaUsedThisTurn := true, lastDamageSource := none }

/-- Target sets offering a legal victim, so no precondition besides the
attack-limit gate is in play. -/
def c4targets : Targets :=
  { attackable := [1], allOthers := [1], dis1 := [1], selfIds := [0] }

/-- A finished game in which the lord fell while the traitor remained the
lone survivor. -/
def c9roster : List Player :=
  [ { playerId := 0, identity := .lord, status := .dead, currentHp := 0,
      maxHp := 5, handCards := [], equipment := .empty,
      shaUsedThisTurn := false, lastDamageSource := none },
    { playerId := 1, identity := .rebel, status := .dead, currentHp := 0,
      maxHp := 4, handCards := [], equipment := .empty,
      shaUsedThisTurn := false, lastDamageSource := none },
    { playerId := 2, identity := .traitor, status := .alive, currentHp := 3,
      maxHp := 4, handCards := [], equipment := .empty,
      shaUsedThisTurn := false, lastDamageSource := none } ]

/-- A roster with a dead lord and two surviving rebels. -/
def c9roster2 : List Player :=
  [ { playerId := 0, identity := .lord, status := .dead, currentHp := 0,
      maxHp := 5, handCards := [], equipment := .empty,
      shaUsedThisTurn := false, lastDamageSource := none },
    { playerId := 1, identity := .rebel, status := .alive, currentHp := 2,
      maxHp := 4, handCards := [], equipment := .empty,
      shaUsedThisTurn := false, lastDamageSource := none },
    { playerId := 2, identity := .rebel, status := .alive, currentHp := 1,
      maxHp := 4, handCards := [], equipment := .empty,
      shaUsedThisTurn := false, lastDamageSource := none } ]

/-- The seat-distance formula exactly as claim C10 words it: the shorter of
the clockwise and counterclockwise distances along the living seating order,
decreased by 1 if the acting player has an attack mount equipped and
increased by 1 if the target has a defense mount equipped — with no
intermediate or final clamping. -/
def claimSeatDistance (ps : List Player) (fromId toId : Nat) : Option Int :=
  let alive := ps.filter Player.isAlive
  match alive.findIdx? (fun p => p.playerId == fromId),
        alive.findIdx? (fun p => p.playerId == toId),
        getPlayer ps fromId, getPlayer ps toId with
  | some fi, some ti, some fp, some tp =>
    let n := alive.length
    let cw := (ti + n - fi) % n
    let ccw := (fi + n - ti) % n
    some ((min cw ccw : Int) -
      (if fp.equipment.horseMinus.isSome then 1 else 0) +
      (if tp.equipment.horsePlus.isSome then 1 else 0))
  | _, _, _, _ => none

/-- Two adjacent living players: seat 0 carries the attack mount, seat 1 the
defense mount; seat 0 is bare-handed (attack range 1). -/
def c10roster : List Player :=
  [ { playerId := 0, identity := .lord, status := .alive, currentHp := 4,
      maxHp := 5, handCards := [],
      equipment := Equipment.mk none none none
        (some (Card.mk .spades 5 .jinGongMa)),
      shaUsedThisTurn := false, lastDamageSource := none },
    { playerId := 1, identity := .rebel, status := .alive, currentHp := 4,
      maxHp := 4, handCards := [],
      equipment := Equipment.mk none none
        (some (Card.mk .hearts 5 .fangYuMa)) none,
      shaUsedThisTurn := false, lastDamageSource := none } ]

/-- The amended seat-distance formula: as the claim words it, except that the
attack-mount decrement is floored at distance 1 before the defense-mount
increment is added, and the final distance is again floored at 1. -/
def amendedSeatDistance (ps : List Player) (fromId toId : Nat) : Option Nat :=
  let alive := ps.filter Player.isAlive
  match alive.findIdx? (fun p => p.playerId == fromId),
        alive.findIdx? (fun p => p.playerId == toId),
        getPlayer ps fromId, getPlayer ps toId with
  | some fi, some ti, some fp, some tp =>
    let n := alive.length
    let base := min ((ti + n - fi) % n) ((fi + n - ti) % n)
    let b1 := if fp.equipment.horseMinus.isSome then max 1 (base - 1) else base
    let b2 := if tp.equipment.horsePlus.isSome then b1 + 1 else b1
    some (max 1 b2)
  | _, _, _, _ => none

/-- The cards a player holds: hand plus equipment, as a multiset. -/
def playerCardsM (p : Player) : Multiset Card :=
  (p.handCards : Multiset Card) + (p.equipment.cards : Multiset Card)

/-- All cards held across the roster. -/
def rosterCardsM : List Player → Multiset Card
  | [] => 0
  | p :: ps => playerCardsM p + rosterCardsM ps

/-- Every card of the game: draw pile, discard pile, hands and equipment.
The conservation statements below say engine operations preserve it. -/
def stateCardsM (s : GState) : Multiset Card :=
  (s.deck.cards : Multiset Card) + (s.deck.discardPile : Multiset Card)
    + rosterCardsM s.players

/-- A duel scene: seat 0 (the attacker, no Attack cards in hand) duels
seat 1 (the chosen target, one Attack card in hand). -/
def c5state : GState :=
  { players :=
      [ { playerId := 0, identity := .lord, status := .alive, currentHp := 4,
          maxHp := 5, handCards := [], equipment := .empty,
          shaUsedThisTurn := false, lastDamageSource := none },
        { playerId := 1, identity := .rebel, status := .alive, currentHp := 4,
          maxHp := 4, handCards := [Card.mk .spades 9 .sha],
          equipment := .empty, shaUsedThisTurn := false,
          lastDamageSource := none } ],
    deck := { cards := [], discardPile := [] } }

/-- The Duel card played in the witness scene. -/
def c5card : Card := Card.mk .diamonds 1 .jueDou

/-- A dying seat 0 holding one Heal card, next to a healthy seat 1. -/
def c6state : GState :=
  { players :=
      [ { playerId := 0, identity := .lord, status := .alive, currentHp := 0,
          maxHp := 4, handCards := [Card.mk .hearts 12 .tao],
          equipment := .empty, shaUsedThisTurn := false,
          lastDamageSource := none },
        { playerId := 1, identity := .rebel, status := .alive, currentHp := 3,
          maxHp := 4, handCards := [], equipment := .empty,
          shaUsedThisTurn := false, lastDamageSource := none } ],
    deck := { cards := [], discardPile := [] } }

/-- An oracle that plays every response it is offered, with an identity
shuffle. -/
def alwaysYesOracle : Oracle :=
  { shuffle := id, useTao := fun _ => true, useShan := fun _ => true,
    useSha := fun _ _ => true, useWuXie := fun _ _ => true,
    selectDiscard := fun h n => h.take n }

/-- Two seated players; seat 1 holds a single Counter card. -/
def c2state : GState :=
  { players :=
      [ { playerId := 0, identity := .lord, status := .alive, currentHp := 4,
          maxHp := 5, handCards := [], equipment := .empty,
          shaUsedThisTurn := false, lastDamageSource := none },
        { playerId := 1, identity := .rebel, status := .alive, currentHp := 3,
          maxHp := 4, handCards := [Card.mk .clubs 11 .wuXieKeJi],
          equipment := .empty, shaUsedThisTurn := false,
          lastDamageSource := none } ],
    deck := { cards := [], discardPile := [] } }

/-! ### Generic lemmas about the state-threading helpers -/

theorem getPlayer_cons_pos {q : Player} {ps : List Player} {pid : Nat}
    (hq : q.playerId = pid) : getPlayer (q :: ps) pid = some q :=
  List.find?_cons_of_pos _ (by simp [hq])

theorem getPlayer_cons_neg {q : Player} {ps : List Player} {pid : Nat}
    (hq : q.playerId ≠ pid) : getPlayer (q :: ps) pid = getPlayer ps pid :=
  List.find?_cons_of_neg _ (by simp [hq])

theorem updateFirst_cons_pos {q : Player} {ps : List Player} {pid : Nat}
    {f : Player → Player} (hq : q.playerId = pid) :
    updateFirst (q :: ps) pid f = f q :: ps := by
  simp [updateFirst, hq]

theorem updateFirst_cons_neg {q : Player} {ps : List Player} {pid : Nat}
    {f : Player → Player} (hq : q.playerId ≠ pid) :
    updateFirst (q :: ps) pid f = q :: updateFirst ps pid f := by
  simp [updateFirst, hq]

theorem getPlayer_updateFirst_self {ps : List Player} {pid : Nat} {p : Player}
    (f : Player → Player) (hf : ∀ x, x.playerId = pid → (f x).playerId = pid)
    (h : getPlayer ps pid = some p) :
    getPlayer (updateFirst ps pid f) pid = some (f p) := by
  induction ps with
  | nil => simp [getPlayer] at h
  | cons q ps ih =>
    by_cases hq : q.playerId = pid
    · rw [getPlayer_cons_pos hq] at h
      injection h with h
      subst h
      rw [updateFirst_cons_pos hq, getPlayer_cons_pos (hf _ hq)]
    · rw [getPlayer_cons_neg hq] at h
      rw [updateFirst_cons_neg hq, getPlayer_cons_neg hq]
      exact ih h

theorem getPlayer_updateFirst_ne {ps : List Player} {pid qid : Nat}
    (f : Player → Player) (hf : ∀ x, x.playerId = pid → (f x).playerId = pid)
    (hne : qid ≠ pid) :
    getPlayer (updateFirst ps pid f) qid = getPlayer ps qid := by
  induction ps with
  | nil => simp [updateFirst]
  | cons q ps ih =>
    by_cases hq : q.playerId = pid
    · have hfq : (f q).playerId = pid := hf q hq
      have hq2 : q.playerId ≠ qid := by
        rw [hq]; exact fun hh => hne hh.symm
      rw [updateFirst_cons_pos hq,
        getPlayer_cons_neg (by rw [hfq]; exact fun hh => hne hh.symm),
        getPlayer_cons_neg hq2]
    · by_cases hq2 : q.playerId = qid
      · rw [updateFirst_cons_neg hq, getPlayer_cons_pos hq2,
          getPlayer_cons_pos hq2]
      · rw [updateFirst_cons_neg hq, getPlayer_cons_neg hq2,
          getPlayer_cons_neg hq2]
        exact ih

/-- The player returned by get_player carries the looked-up id. -/
theorem getPlayer_id {ps : List Player} {pid : Nat} {p : Player}
    (h : getPlayer ps pid = some p) : p.playerId = pid := by
  have := List.find?_some h
  simpa using this

theorem updateFirst_of_not_found {ps : List Player} {pid : Nat}
    (f : Player → Player) (h : getPlayer ps pid = none) :
    updateFirst ps pid f = ps := by
  induction ps with
  | nil => simp [updateFirst]
  | cons q ps ih =>
    by_cases hq : q.playerId = pid
    · rw [getPlayer_cons_pos hq] at h
      exact absurd h (by simp)
    · rw [getPlayer_cons_neg hq] at h
      rw [updateFirst_cons_neg hq, ih h]

/-- Discarding a list of cards by folding appends the list in order. -/
theorem foldl_discardCard (l : List Card) (d : Deck) :
    (l.foldl Deck.discardCard d).discardPile = d.discardPile ++ l ∧
    (l.foldl Deck.discardCard d).cards = d.cards := by
  induction l generalizing d with
  | nil => simp
  | cons c l ih =>
    have := ih (d.discardCard c)
    simpa [Deck.discardCard, List.append_assoc] using this

/-! ### Claim theorems -/

/-- Claim C3: Player.take_damage_default clamps hit points below at 0 for any
damage amount, Player.heal clamps them above at max_hp for any heal amount,
and starting from `0 ≤ hp ≤ max_hp` both operations keep the invariant for
their nonnegative amounts. -/
theorem C3_hp_bounds (p : Player) (damage amount : Int) (src : Option Nat)
    (hlo : 0 ≤ p.currentHp) (hhi : p.currentHp ≤ p.maxHp) :
    0 ≤ (takeDamageDefault p damage src).currentHp ∧
    (healPlayer p amount).currentHp ≤ p.maxHp ∧
    (0 ≤ damage →
      0 ≤ (takeDamageDefault p damage src).currentHp ∧
      (takeDamageDefault p damage src).currentHp ≤ p.maxHp) ∧
    (0 ≤ amount →
      0 ≤ (healPlayer p amount).currentHp ∧
      (healPlayer p amount).currentHp ≤ p.maxHp) := by
  unfold takeDamageDefault healPlayer
  dsimp only
  omega

theorem C3_hp_bounds_witness :
    ∃ p : Player, 0 ≤ p.currentHp ∧ p.currentHp ≤ p.maxHp ∧
      (0 ≤ (takeDamageDefault p 5 none).currentHp ∧
       (healPlayer p 5).currentHp ≤ p.maxHp ∧
       (0 ≤ (5 : Int) →
         0 ≤ (takeDamageDefault p 5 none).currentHp ∧
         (takeDamageDefault p 5 none).currentHp ≤ p.maxHp) ∧
       (0 ≤ (5 : Int) →
         0 ≤ (healPlayer p 5).currentHp ∧
         (healPlayer p 5).currentHp ≤ p.maxHp)) :=
  ⟨{ playerId := 0, identity := .lord, status := .alive, currentHp := 3,
     maxHp := 4, handCards := [], equipment := .empty,
     shaUsedThisTurn := false, lastDamageSource := none },
   by decide, by decide,
   C3_hp_bounds _ 5 5 none (by decide) (by decide)⟩

/-- Claim C4: the code disagrees.  The first branch of Player._can_play_card
reads `if self.sha_used_this_turn and limit <= 1: return False` without
testing that the candidate card is an Attack card, although its own comment
documents a Sha-only gate; once the flag is set every card kind is reported
unplayable.  Here a wounded player's Heal card is rejected although its own
precondition `hp < max_hp` holds, and the same card is accepted the moment
the unrelated Attack flag is cleared. -/
theorem C4_limit_gate_blocks_heal :
    canPlayCard c4player c4tao (some c4targets) = false ∧
    c4player.currentHp < c4player.maxHp ∧
    canPlayCard { c4player with shaUsedThisTurn := false } c4tao
      (some c4targets) = true := by
  decide

/-- Claim C7: Deck.draw_card on an exhausted draw pile reshuffles the discard
pile into a draw pile with the same multiset of cards, empties the discard
pile, and serves a card from the reshuffled pile; with both piles empty it
yields no card and leaves the deck unchanged, and a multi-card draw then
yields fewer (here zero) cards and never more than requested. -/
theorem C7_reshuffle_and_exhaustion (o : Oracle) (d : Deck)
    (hperm : ∀ l, (o.shuffle l).Perm l) :
    (d.cards = [] → d.discardPile ≠ [] →
      ∃ c rest, Deck.drawCard o.shuffle d = (some c, ⟨rest, []⟩) ∧
        (c :: rest).Perm d.discardPile) ∧
    (d.cards = [] → d.discardPile = [] →
      Deck.drawCard o.shuffle d = (none, d) ∧
      ∀ n, Deck.drawCards o.shuffle n d = ([], d)) ∧
    (∀ n, (Deck.drawCards o.shuffle n d).1.length ≤ n) := by
  refine ⟨?_, ?_, ?_⟩
  · intro hc hd
    have hp := hperm d.discardPile
    unfold Deck.drawCard
    simp only [hc, List.isEmpty_nil, List.isEmpty_eq_true, hd, Bool.true_and,
      Bool.not_eq_true', if_pos]
    cases hsh : o.shuffle d.discardPile with
    | nil =>
      rw [hsh] at hp
      exact absurd (hp.symm.eq_nil) hd
    | cons c rest =>
      rw [hsh] at hp
      refine ⟨c, rest, ?_, hp⟩
      simp [hc, hd, hsh]
  · intro hc hd
    constructor
    · unfold Deck.drawCard
      simp [hc, hd]
    · intro n
      cases n with
      | zero => simp [Deck.drawCards]
      | succ m =>
        unfold Deck.drawCards
        rw [show Deck.drawCard o.shuffle d = (none, d) by
          unfold Deck.drawCard; simp [hc, hd]]
  · intro n
    clear hperm
    induction n generalizing d with
    | zero => simp [Deck.drawCards]
    | succ m ih =>
      unfold Deck.drawCards
      cases h : Deck.drawCard o.shuffle d with
      | mk oc d' =>
        cases oc with
        | none => simp
        | some c =>
          have hlen := ih d'
          cases hcs : Deck.drawCards o.shuffle m d' with
          | mk cs d'' =>
            simp only [hcs]
            simp [hcs] at hlen
            simpa using Nat.succ_le_succ hlen

theorem C7_reshuffle_witness :
    (∀ l, (Oracle.mk id (fun _ => false) (fun _ => false) (fun _ _ => false)
      (fun _ _ => false) (fun _ _ => [])).shuffle l |>.Perm l) ∧
    ((Deck.mk [] [Card.mk .hearts 7 .sha]).cards = [] →
      (Deck.mk [] [Card.mk .hearts 7 .sha]).discardPile ≠ [] →
      ∃ c rest,
        Deck.drawCard id (Deck.mk [] [Card.mk .hearts 7 .sha]) =
          (some c, ⟨rest, []⟩) ∧
        (c :: rest).Perm (Deck.mk [] [Card.mk .hearts 7 .sha]).discardPile) := by
  refine ⟨fun l => List.Perm.refl l, ?_⟩
  have h := C7_reshuffle_and_exhaustion
    (Oracle.mk id (fun _ => false) (fun _ => false) (fun _ _ => false)
      (fun _ _ => false) (fun _ _ => []))
    (Deck.mk [] [Card.mk .hearts 7 .sha]) (fun l => List.Perm.refl l)
  exact h.1

/-- Slot reads after a write to the same slot. -/
theorem getSlot_setSlot_self (e : Equipment) (slot : Slot) (c : Option Card) :
    (e.setSlot slot c).getSlot slot = c := by
  cases slot <;> rfl

/-- Slot reads after a write to a different slot. -/
theorem getSlot_setSlot_ne (e : Equipment) (slot s' : Slot) (c : Option Card)
    (h : s' ≠ slot) : (e.setSlot slot c).getSlot s' = e.getSlot s' := by
  cases slot <;> cases s' <;> first | rfl | exact absurd rfl h

/-- Claim C8: EquipmentManager.equip into an occupied slot succeeds, moves
the incumbent to the discard pile first, places the new card so that exactly
it occupies the slot, and leaves the other three slots and the draw pile
unchanged. -/
theorem C8_equip_replacement (card old : Card) (e : Equipment) (d : Deck)
    (slot : Slot) (hslot : cardToSlot card.name = some slot)
    (hocc : e.getSlot slot = some old) :
    (equipOp card e d).1 = true ∧
    ((equipOp card e d).2.1).getSlot slot = some card ∧
    ((equipOp card e d).2.2).discardPile = d.discardPile ++ [old] ∧
    ((equipOp card e d).2.2).cards = d.cards ∧
    ∀ s' : Slot, s' ≠ slot →
      ((equipOp card e d).2.1).getSlot s' = e.getSlot s' := by
  have hequip : card.isEquipment = true := by
    cases h : card.name <;> simp_all [cardToSlot, Card.isEquipment, cardTypeOf]
  refine ⟨?_, ?_, ?_, ?_, ?_⟩ <;>
    simp [equipOp, hequip, hslot, hocc, Deck.discardCard, getSlot_setSlot_self]
  intro s' hs'
  exact getSlot_setSlot_ne e slot s' (some card) hs'

theorem C8_equip_replacement_witness :
    cardToSlot (Card.mk .hearts 5 .fangYuMa).name = some Slot.horsePlus ∧
    (Equipment.mk none none (some (Card.mk .spades 6 .fangYuMa)) none).getSlot
      Slot.horsePlus = some (Card.mk .spades 6 .fangYuMa) ∧
    ((equipOp (Card.mk .hearts 5 .fangYuMa)
        (Equipment.mk none none (some (Card.mk .spades 6 .fangYuMa)) none)
        (Deck.mk [] [])).1 = true ∧
      ((equipOp (Card.mk .hearts 5 .fangYuMa)
        (Equipment.mk none none (some (Card.mk .spades 6 .fangYuMa)) none)
        (Deck.mk [] [])).2.1).getSlot Slot.horsePlus =
          some (Card.mk .hearts 5 .fangYuMa)) :=
  ⟨by decide, by decide,
   let h := C8_equip_replacement (Card.mk .hearts 5 .fangYuMa)
     (Card.mk .spades 6 .fangYuMa)
     (Equipment.mk none none (some (Card.mk .spades 6 .fangYuMa)) none)
     (Deck.mk [] []) Slot.horsePlus (by decide) (by decide)
   ⟨h.1, h.2.1⟩⟩

/-- Claim C9 counterexample: a game state whose lord actor is dead, where the
game-over check does fire, yet the declared winner is the traitor and not the
rebel coalition — PlayerController.get_winner tests the lone-surviving-traitor
rule before the dead-lord rule. -/
theorem C9_counterexample :
    (getPlayer c9roster 0).map Player.identity = some PlayerIdentity.lord ∧
    (getPlayer c9roster 0).map Player.isAlive = some false ∧
    gameOver c9roster = true ∧
    getWinner c9roster = some Winner.traitorWins ∧
    Winner.traitorWins ≠ Winner.rebelsWin := by
  decide

/-- Claim C9 (amended): whenever the roster's lord actor is dead, the
game-over check reports the game as ended and the declared winner is the
rebel coalition — unless exactly one actor remains alive and it is the
traitor, who then wins alone.  Additionally, whenever the dying process ends
in a death, the game-over verdict is recomputed at once and latched into the
engine's game-ended flag. -/
theorem C9_lord_dead_rebels_win (ps : List Player) (lord : Player)
    (hlord : ps.find? (fun p => p.identity == PlayerIdentity.lord) = some lord)
    (hdead : lord.isAlive = false)
    (hlone : (ps.filter Player.isAlive).length = 1 →
      ∀ w ∈ ps.filter Player.isAlive, w.identity ≠ PlayerIdentity.traitor) :
    gameOver ps = true ∧ getWinner ps = some Winner.rebelsWin ∧
    (∀ (o : Oracle) (s : GState) (g : Bool) (dyingId : Nat) (p : Player),
      getPlayer s.players dyingId = some p → ¬ p.currentHp > 0 →
      (p.handCards.filter (fun c => c.name == CardName.tao) = [] ∨
        o.useTao p.playerId = false) →
      (handleDyingProcess o s g dyingId).2
        = (g || gameOver (handleDyingProcess o s g dyingId).1.players)) := by
  have hgo : gameOver ps = true := by
    unfold gameOver
    by_cases h1 : (ps.filter Player.isAlive).length ≤ 1
    · simp [h1]
    · simp [h1, hlord, hdead]
  refine ⟨hgo, ?_, ?_⟩
  · unfold getWinner
    rw [hgo]
    have hlonef :
        (match ps.filter Player.isAlive with
          | [w] => w.identity == PlayerIdentity.traitor
          | _ => false) = false := by
      cases halive : ps.filter Player.isAlive with
      | nil => rfl
      | cons w rest =>
        cases rest with
        | nil =>
          have hw : w ∈ ps.filter Player.isAlive := by
            rw [halive]; exact List.mem_singleton_self w
          have := hlone (by rw [halive]; rfl) w hw
          simpa using this
        | cons w2 rest2 => rfl
    simp only [hlonef, hlord, hdead, Bool.not_true, Bool.not_false,
      if_false, if_true, ite_true, ite_false]
    rfl
  · intro o s g dyingId p hp hhp hdecline
    unfold handleDyingProcess
    rw [hp]
    have hnone : askUseNamed (o.useTao p.playerId) CardName.tao p = (none, p) := by
      unfold askUseNamed
      rcases hdecline with hfil | hfal
      · rw [hfil]
      · cases hfc : p.handCards.filter (fun c => c.name == CardName.tao) with
        | nil => rfl
        | cons c rest => rw [hfal]; simp
    simp [hhp, hnone]

theorem C9_lord_dead_rebels_win_witness :
    (c9roster2.find? (fun p => p.identity == PlayerIdentity.lord)).map
      Player.isAlive = some false ∧
    gameOver c9roster2 = true ∧ getWinner c9roster2 = some Winner.rebelsWin := by
  refine ⟨by decide, ?_, ?_⟩
  · exact (C9_lord_dead_rebels_win c9roster2 (c9roster2.get ⟨0, by decide⟩)
      (by decide) (by decide)
      (fun h => absurd h (by decide))).1
  · exact (C9_lord_dead_rebels_win c9roster2 (c9roster2.get ⟨0, by decide⟩)
      (by decide) (by decide)
      (fun h => absurd h (by decide))).2.1

/-- Claim C10 counterexample: by the claim's unclamped arithmetic the
adjusted seat distance from seat 0 to the living seat 1 is 1 - 1 + 1 = 1,
within the bare-handed attack range 1, so seat 1 ought to be attackable; but
PlayerController.calculate_distance floors the attack-mount decrement at 1
before adding the defense mount, yielding 2, and get_targets reports an empty
attackable set. -/
theorem C10_counterexample :
    claimSeatDistance c10roster 0 1 = some 1 ∧
    getAttackRange c10roster 0 = 1 ∧
    (getPlayer c10roster 1).map Player.isAlive = some true ∧
    calculateDistance c10roster 0 1 = 2 ∧
    (getTargets c10roster 0).attackable = [] ∧
    ¬ 1 ∈ (getTargets c10roster 0).attackable := by
  decide

/-- Under a seated living acting player and a living other target, the code's
calculate_distance computes exactly the amended (clamped) formula. -/
theorem amended_eq_calc (ps : List Player) (fromId tid : Nat)
    (hne : tid ≠ fromId) (h2 : 2 ≤ (ps.filter Player.isAlive).length)
    (hf : ∃ q ∈ ps.filter Player.isAlive, q.playerId = fromId)
    (ht : ∃ q ∈ ps.filter Player.isAlive, q.playerId = tid) :
    amendedSeatDistance ps fromId tid
      = some (calculateDistance ps fromId tid) := by
  obtain ⟨qf, hqf, hqfid⟩ := hf
  obtain ⟨qt, hqt, hqtid⟩ := ht
  have hfi : ((ps.filter Player.isAlive).findIdx?
      (fun p => p.playerId == fromId)).isSome := by
    rw [List.findIdx?_isSome]
    exact List.any_eq_true.mpr ⟨qf, hqf, by simp [hqfid]⟩
  have hti : ((ps.filter Player.isAlive).findIdx?
      (fun p => p.playerId == tid)).isSome := by
    rw [List.findIdx?_isSome]
    exact List.any_eq_true.mpr ⟨qt, hqt, by simp [hqtid]⟩
  obtain ⟨fi, hfieq⟩ := Option.isSome_iff_exists.mp hfi
  obtain ⟨ti, htieq⟩ := Option.isSome_iff_exists.mp hti
  have hgf : (getPlayer ps fromId).isSome := by
    unfold getPlayer
    rw [List.find?_isSome]
    exact ⟨qf, List.mem_of_mem_filter hqf, by simp [hqfid]⟩
  have hgt : (getPlayer ps tid).isSome := by
    unfold getPlayer
    rw [List.find?_isSome]
    exact ⟨qt, List.mem_of_mem_filter hqt, by simp [hqtid]⟩
  obtain ⟨fp, hgfeq⟩ := Option.isSome_iff_exists.mp hgf
  obtain ⟨tp, hgteq⟩ := Option.isSome_iff_exists.mp hgt
  have hne' : ¬ fromId = tid := fun h => hne h.symm
  have h2' : ¬ (ps.filter Player.isAlive).length ≤ 1 := by omega
  unfold amendedSeatDistance calculateDistance
  simp only [hfieq, htieq, hgfeq, hgteq, hne', if_false, h2', ite_false]

/-- Claim C10 (amended): the attackable set contains exactly the other
living seated actors whose amended seat distance — the claim's formula with
the attack-mount decrement floored at 1 before the defense-mount increment
and a final floor of 1 — is at most the acting player's attack range: 1
bare-handed, the weapon's range otherwise. -/
theorem C10_attackable_amended (ps : List Player) (fromId tid : Nat)
    (hne : tid ≠ fromId)
    (h2 : 2 ≤ (ps.filter Player.isAlive).length)
    (hfrom : ∃ q ∈ ps.filter Player.isAlive, q.playerId = fromId) :
    tid ∈ (getTargets ps fromId).attackable ↔
      (tid ∈ ((ps.filter (fun p => p.isAlive && !(p.playerId == fromId))).map
          Player.playerId) ∧
       ∃ dv, amendedSeatDistance ps fromId tid = some dv ∧
         dv ≤ getAttackRange ps fromId) := by
  have hothers : ∀ x, x ∈ ((ps.filter
        (fun p => p.isAlive && !(p.playerId == fromId))).map Player.playerId) →
      ∃ q ∈ ps.filter Player.isAlive, q.playerId = x := by
    intro x hx
    rw [List.mem_map] at hx
    obtain ⟨q, hq, hqid⟩ := hx
    rw [List.mem_filter] at hq
    refine ⟨q, ?_, hqid⟩
    rw [List.mem_filter]
    exact ⟨hq.1, by simpa using (Bool.and_elim_left hq.2)⟩
  constructor
  · intro hmem
    unfold getTargets at hmem
    simp only [List.mem_filter] at hmem
    obtain ⟨hin, hdist⟩ := hmem
    refine ⟨hin, calculateDistance ps fromId tid, ?_, by simpa using hdist⟩
    exact amended_eq_calc ps fromId tid hne h2 hfrom (hothers tid hin)
  · rintro ⟨hin, dv, hdv, hle⟩
    unfold getTargets
    simp only [List.mem_filter]
    refine ⟨hin, ?_⟩
    have := amended_eq_calc ps fromId tid hne h2 hfrom (hothers tid hin)
    rw [this] at hdv
    injection hdv with hdv
    simpa [hdv] using hle

/-- A positively answered Counter query returns a Counter card of the
queried hand. -/
theorem askCounterOne_some {o : Oracle} {pol : Bool} {p : Player} {c : Card}
    (h : askCounterOne o pol p = some c) :
    c ∈ p.handCards ∧ c.name = CardName.wuXieKeJi := by
  unfold askCounterOne at h
  cases hcc : counterCards p with
  | nil => rw [hcc] at h; exact absurd h (by simp)
  | cons c0 rest =>
    rw [hcc] at h
    by_cases hw : o.useWuXie p.playerId pol
    · simp only [hw, if_true] at h
      injection h with h
      subst h
      have hmem : c0 ∈ counterCards p := by
        rw [hcc]; exact List.mem_cons_self _ _
      unfold counterCards at hmem
      rw [List.mem_filter] at hmem
      exact ⟨hmem.1, by simpa using hmem.2⟩
    · simp [hw] at h

/-- A successful poll names a polled player and one of his Counter cards. -/
theorem pollCounter_some {o : Oracle} {pol : Bool} {l : List Player}
    {pid : Nat} {c : Card} (h : pollCounter o pol l = some (pid, c)) :
    ∃ p ∈ l, p.playerId = pid ∧ c ∈ p.handCards ∧
      c.name = CardName.wuXieKeJi := by
  induction l with
  | nil => simp [pollCounter] at h
  | cons p ps ih =>
    unfold pollCounter at h
    cases hask : askCounterOne o pol p with
    | some c0 =>
      rw [hask] at h
      injection h with h
      obtain ⟨h1, h2⟩ := Prod.mk.inj h
      subst h1; subst h2
      obtain ⟨hc1, hc2⟩ := askCounterOne_some hask
      exact ⟨p, List.mem_cons_self _ _, rfl, hc1, hc2⟩
    | none =>
      rw [hask] at h
      obtain ⟨q, hq, hrest⟩ := ih h
      exact ⟨q, List.mem_cons_of_mem _ hq, hrest⟩

/-- Successor parity as the engine's boolean test sees it. -/
theorem mod_two_succ_beq (n : Nat) : ((n + 1) % 2 == 1) = !(n % 2 == 1) := by
  rcases Nat.mod_two_eq_zero_or_one n with h | h <;>
    simp [Nat.add_mod, h]

/-- Fuel-indexed behaviour of the negation chain: the returned polarity is
the initial one XORed with the parity of the number of Counters played, the
played Counters land on the discard pile in order, and each of them is a
Counter card. -/
theorem askWuXieAux_spec (o : Oracle) (fuel : Nat) :
    ∀ (s : GState) (userId : Nat) (pol : Bool),
      ((askWuXieAux o fuel s userId pol).1
        = Bool.xor ((askWuXieAux o fuel s userId pol).2.2.length % 2 == 1) pol) ∧
      ((askWuXieAux o fuel s userId pol).2.1.deck.discardPile
        = s.deck.discardPile ++ (askWuXieAux o fuel s userId pol).2.2) ∧
      ∀ c ∈ (askWuXieAux o fuel s userId pol).2.2,
        c.name = CardName.wuXieKeJi := by
  induction fuel with
  | zero => intro s u pol; simp [askWuXieAux]
  | succ n ih =>
    intro s u pol
    by_cases halive : (s.players.filter Player.isAlive).isEmpty
    · simp [askWuXieAux, halive]
    · cases hidx : (s.players.filter Player.isAlive).findIdx?
          (fun p => p.playerId == u) with
      | none => simp [askWuXieAux, halive, hidx]
      | some ui =>
        cases hpoll : pollCounter o pol
            ((s.players.filter Player.isAlive).drop ui ++
             (s.players.filter Player.isAlive).take ui) with
        | none => simp [askWuXieAux, halive, hidx, hpoll]
        | some pc =>
          obtain ⟨pid, c⟩ := pc
          obtain ⟨p, _, _, _, hcname⟩ := pollCounter_some hpoll
          have hstep : askWuXieAux o (n + 1) s u pol =
              (let ps' := updateFirst s.players pid
                (fun q => { q with handCards := q.handCards.erase c })
               let r := askWuXieAux o n ⟨ps', s.deck.discardCard c⟩ pid (!pol)
               (r.1, r.2.1, c :: r.2.2)) := by
            simp [askWuXieAux, halive, hidx, hpoll]
          rw [hstep]
          obtain ⟨ih1, ih2, ih3⟩ := ih
            ⟨updateFirst s.players pid
              (fun q => { q with handCards := q.handCards.erase c }),
             s.deck.discardCard c⟩ pid (!pol)
          refine ⟨?_, ?_, ?_⟩
          · dsimp only
            rw [List.length_cons, mod_two_succ_beq, ih1]
            cases h1 : ((askWuXieAux o n
                ⟨updateFirst s.players pid
                  (fun q => { q with handCards := q.handCards.erase c }),
                 s.deck.discardCard c⟩ pid (!pol)).2.2.length % 2 == 1) <;>
              cases pol <;> rfl
          · dsimp only
            rw [ih2]
            simp [Deck.discardCard]
          · dsimp only
            intro c' hc'
            rcases List.mem_cons.mp hc' with rfl | hc'
            · exact hcname
            · exact ih3 c' hc'

theorem totalCounters_cons (q : Player) (ps : List Player) :
    totalCounters (q :: ps) = (counterCards q).length + totalCounters ps := by
  simp [totalCounters]

theorem totalCounters_updateFirst {ps : List Player} {pid : Nat} {p : Player}
    (f : Player → Player) (h : getPlayer ps pid = some p) :
    totalCounters (updateFirst ps pid f) + (counterCards p).length
      = totalCounters ps + (counterCards (f p)).length := by
  induction ps with
  | nil => simp [getPlayer] at h
  | cons q ps ih =>
    by_cases hq : q.playerId = pid
    · rw [getPlayer_cons_pos hq] at h
      injection h with h
      subst h
      rw [updateFirst_cons_pos hq, totalCounters_cons, totalCounters_cons]
      omega
    · rw [getPlayer_cons_neg hq] at h
      rw [updateFirst_cons_neg hq, totalCounters_cons, totalCounters_cons]
      have := ih h
      omega

theorem counterCards_erase {p : Player} {c : Card}
    (hc : c ∈ p.handCards) (hn : c.name = CardName.wuXieKeJi) :
    (counterCards { p with handCards := p.handCards.erase c }).length + 1
      = (counterCards p).length := by
  unfold counterCards
  have hperm : p.handCards.Perm (c :: p.handCards.erase c) :=
    List.perm_cons_erase hc
  have h1 : (p.handCards.filter (fun x => x.name == CardName.wuXieKeJi)).length
      = ((c :: p.handCards.erase c).filter
          (fun x => x.name == CardName.wuXieKeJi)).length := by
    rw [← List.countP_eq_length_filter, ← List.countP_eq_length_filter]
    exact hperm.countP_eq _
  dsimp only
  rw [h1, List.filter_cons]
  simp [hn]

theorem getPlayer_of_nodup_mem {ps : List Player} {p : Player}
    (hnd : (ps.map Player.playerId).Nodup) (hp : p ∈ ps) :
    getPlayer ps p.playerId = some p := by
  induction ps with
  | nil => simp at hp
  | cons q ps ih =>
    rw [List.map_cons, List.nodup_cons] at hnd
    rcases List.mem_cons.mp hp with rfl | hp'
    · exact getPlayer_cons_pos rfl
    · by_cases hq : q.playerId = p.playerId
      · exact absurd (hq ▸ List.mem_map_of_mem Player.playerId hp') hnd.1
      · rw [getPlayer_cons_neg hq]
        exact ih hnd.2 hp'

theorem map_playerId_updateFirst (ps : List Player) (pid : Nat)
    (f : Player → Player) (hf : ∀ x, (f x).playerId = x.playerId) :
    (updateFirst ps pid f).map Player.playerId = ps.map Player.playerId := by
  induction ps with
  | nil => rfl
  | cons q ps ih =>
    by_cases hq : q.playerId = pid
    · rw [updateFirst_cons_pos hq]
      simp [hf]
    · rw [updateFirst_cons_neg hq]
      simp [ih]

/-- With distinct seat ids, any fuel beyond the Counter supply leaves the
chain's behaviour unchanged: the recursion genuinely terminates because each
step consumes one Counter card from a finite supply. -/
theorem askWuXieAux_stable (o : Oracle) :
    ∀ fuel₁ fuel₂ (s : GState) (userId : Nat) (pol : Bool),
      (s.players.map Player.playerId).Nodup →
      totalCounters s.players < fuel₁ → totalCounters s.players < fuel₂ →
      askWuXieAux o fuel₁ s userId pol = askWuXieAux o fuel₂ s userId pol := by
  intro fuel₁
  induction fuel₁ with
  | zero =>
    intro fuel₂ s u pol _ h1 _
    omega
  | succ n ih =>
    intro fuel₂ s u pol hnd h1 h2
    cases fuel₂ with
    | zero => omega
    | succ m =>
      by_cases halive : (s.players.filter Player.isAlive).isEmpty
      · simp [askWuXieAux, halive]
      · cases hidx : (s.players.filter Player.isAlive).findIdx?
            (fun p => p.playerId == u) with
        | none => simp [askWuXieAux, halive, hidx]
        | some ui =>
          cases hpoll : pollCounter o pol
              ((s.players.filter Player.isAlive).drop ui ++
               (s.players.filter Player.isAlive).take ui) with
          | none => simp [askWuXieAux, halive, hidx, hpoll]
          | some pc =>
            obtain ⟨pid, c⟩ := pc
            obtain ⟨p, hpmem, hpid, hchand, hcname⟩ := pollCounter_some hpoll
            have hpin : p ∈ s.players := by
              rcases List.mem_append.mp hpmem with hmem | hmem
              · exact List.mem_of_mem_filter (List.mem_of_mem_drop hmem)
              · exact List.mem_of_mem_filter (List.mem_of_mem_take hmem)
            have hget : getPlayer s.players pid = some p :=
              hpid ▸ getPlayer_of_nodup_mem hnd hpin
            have htot := totalCounters_updateFirst
              (fun q => { q with handCards := q.handCards.erase c }) hget
            dsimp only at htot
            have herase := counterCards_erase hchand hcname
            have hnd' : (((updateFirst s.players pid
                (fun q => { q with handCards := q.handCards.erase c })).map
                  Player.playerId)).Nodup := by
              rw [map_playerId_updateFirst s.players pid
                (fun q => { q with handCards := q.handCards.erase c })
                (fun x => rfl)]
              exact hnd
            have hdec : totalCounters (updateFirst s.players pid
                (fun q => { q with handCards := q.handCards.erase c })) + 1
                = totalCounters s.players := by omega
            have hstep1 : askWuXieAux o (n + 1) s u pol =
                (let r := askWuXieAux o n
                  ⟨updateFirst s.players pid
                    (fun q => { q with handCards := q.handCards.erase c }),
                   s.deck.discardCard c⟩ pid (!pol)
                 (r.1, r.2.1, c :: r.2.2)) := by
              simp [askWuXieAux, halive, hidx, hpoll]
            have hstep2 : askWuXieAux o (m + 1) s u pol =
                (let r := askWuXieAux o m
                  ⟨updateFirst s.players pid
                    (fun q => { q with handCards := q.handCards.erase c }),
                   s.deck.discardCard c⟩ pid (!pol)
                 (r.1, r.2.1, c :: r.2.2)) := by
              simp [askWuXieAux, halive, hidx, hpoll]
            rw [hstep1, hstep2]
            dsimp only
            rw [ih m ⟨updateFirst s.players pid
                (fun q => { q with handCards := q.handCards.erase c }),
              s.deck.discardCard c⟩ pid (!pol) hnd'
              (by dsimp only; omega) (by dsimp only; omega)]

/-- Claim C2: for every negation chain started with initial polarity `pol`,
if exactly n Counter cards are played during the chain the chain returns
polarity pol XOR (n mod 2); each played Counter is discarded (they extend the
discard pile in play order), every consumed card is a Counter, and — the
seating ids being distinct — any fuel beyond the finite Counter supply gives
the same result, i.e. the restart-from-the-player protocol terminates, a full
silent pass being its only exit. -/
theorem C2_negation_chain (o : Oracle) (s : GState) (userId : Nat)
    (pol : Bool) (hids : (s.players.map Player.playerId).Nodup) :
    ((askWuXieKeJi o s userId pol).1
      = Bool.xor ((askWuXieKeJi o s userId pol).2.2.length % 2 == 1) pol) ∧
    ((askWuXieKeJi o s userId pol).2.1.deck.discardPile
      = s.deck.discardPile ++ (askWuXieKeJi o s userId pol).2.2) ∧
    (∀ c ∈ (askWuXieKeJi o s userId pol).2.2, c.name = CardName.wuXieKeJi) ∧
    (∀ extra, askWuXieAux o (totalCounters s.players + 1 + extra) s userId pol
      = askWuXieKeJi o s userId pol) := by
  obtain ⟨h1, h2, h3⟩ :=
    askWuXieAux_spec o (totalCounters s.players + 1) s userId pol
  refine ⟨h1, h2, h3, ?_⟩
  intro extra
  unfold askWuXieKeJi
  exact askWuXieAux_stable o _ _ s userId pol hids (by omega) (by omega)

/-- A declined (or impossible) named-card query leaves the player unchanged. -/
theorem askUseNamed_none {decide' : Bool} {name : CardName} {p : Player}
    (h : p.handCards.filter (fun c => c.name == name) = [] ∨ decide' = false) :
    askUseNamed decide' name p = (none, p) := by
  unfold askUseNamed
  rcases h with hfil | hfal
  · rw [hfil]
  · cases hfc : p.handCards.filter (fun c => c.name == name) with
    | nil => rfl
    | cons c rest => rw [hfal]; simp

/-- The death reward/penalty pass never rewrites the (already dead) victim's
own record. -/
theorem deathConsequences_victim (o : Oracle) (ps : List Player) (d : Deck)
    (victimId : Nat) (v : Player)
    (hv : getPlayer ps victimId = some v) (hdead : v.isAlive = false) :
    getPlayer (deathConsequences o ps d victimId).1 victimId = some v := by
  unfold deathConsequences
  rw [hv]
  dsimp only
  cases hls : v.lastDamageSource with
  | none => exact hv
  | some killerId =>
    dsimp only
    cases hk : getPlayer ps killerId with
    | none => exact hv
    | some killer =>
      dsimp only
      by_cases halivek : killer.isAlive = true
      · have hkneq : victimId ≠ killerId := by
          intro h
          subst h
          rw [hv] at hk
          injection hk with hk
          subst hk
          rw [hdead] at halivek
          exact Bool.false_ne_true halivek
        by_cases h1 : (v.identity == PlayerIdentity.loyalist &&
            killer.identity == PlayerIdentity.lord) = true
        · simp only [halivek, Bool.not_true, Bool.false_eq_true, if_false,
            h1, if_true, ite_false, ite_true]
          rw [getPlayer_updateFirst_ne
              (fun p => { p with equipment := Equipment.empty })
              (fun x hx => hx) hkneq,
            getPlayer_updateFirst_ne (fun p => { p with handCards := [] })
              (fun x hx => hx) hkneq]
          exact hv
        · by_cases h2 : (v.identity == PlayerIdentity.rebel) = true
          · by_cases h3 : gameOver ps = true
            · simp only [halivek, Bool.not_true, Bool.false_eq_true,
                if_false, h1, h2, h3, ite_true, ite_false]
              exact hv
            · simp only [halivek, Bool.not_true, Bool.false_eq_true,
                if_false, h1, h2, h3, ite_true, ite_false]
              rw [getPlayer_updateFirst_ne
                (fun p => { p with handCards :=
                  p.handCards ++ (Deck.drawCards o.shuffle 3 d).1 })
                (fun x hx => hx) hkneq]
              exact hv
          · simp only [halivek, Bool.not_true, Bool.false_eq_true, if_false,
              h1, h2, ite_false]
            exact hv
      · have hnal : (!killer.isAlive) = true := by
          simp [Bool.eq_false_iff.mpr halivek]
        simp only [hnal, if_true, ite_true]
        exact hv

/-- Player.die leaves the victim dead with an empty hand and no equipment,
all those cards having been moved onto the discard pile. -/
theorem dieOp_spec (o : Oracle) (s : GState) (victimId : Nat) (p : Player)
    (hp : getPlayer s.players victimId = some p) :
    ∃ p', getPlayer (dieOp o s victimId).players victimId = some p' ∧
      p'.status = PlayerStatus.dead ∧ p'.handCards = [] ∧
      p'.equipment = Equipment.empty ∧
      ∀ c ∈ p.handCards ++ p.equipment.cards,
        c ∈ (dieOp o s victimId).deck.discardPile := by
  unfold dieOp
  rw [hp]
  have h1 : getPlayer (updateFirst s.players victimId
      (fun q => { q with status := PlayerStatus.dead, currentHp := 0 }))
      victimId = some { p with status := PlayerStatus.dead, currentHp := 0 } :=
    getPlayer_updateFirst_self _ (fun x hx => hx) hp
  have hdead1 :
      (Player.isAlive { p with status := PlayerStatus.dead, currentHp := 0 })
        = false := by
    simp [Player.isAlive]
  cases hdc : deathConsequences o (updateFirst s.players victimId
      (fun q => { q with status := PlayerStatus.dead, currentHp := 0 }))
      s.deck victimId with
  | mk ps₂ d₂ =>
    have hvc := deathConsequences_victim o _ s.deck victimId _ h1 hdead1
    rw [hdc] at hvc
    dsimp only at hvc ⊢
    rw [hdc]
    dsimp only
    rw [hvc]
    dsimp only
    have hg := getPlayer_updateFirst_self
      (fun q => { q with equipment := Equipment.empty }) (fun x hx => hx)
      (getPlayer_updateFirst_self (fun q => { q with handCards := [] })
        (fun x hx => hx) hvc)
    refine ⟨_, hg, rfl, rfl, rfl, ?_⟩
    intro c hc
    obtain ⟨hd1, -⟩ := foldl_discardCard p.equipment.cards
      (List.foldl Deck.discardCard d₂ p.handCards)
    obtain ⟨hd2, -⟩ := foldl_discardCard p.handCards d₂
    rw [hd1, hd2]
    rcases List.mem_append.mp hc with hmem | hmem
    · exact List.mem_append_left _ (List.mem_append_right _ hmem)
    · exact List.mem_append_right _ hmem

/-- A declined by-id query keeps the roster unchanged. -/
theorem askUseNamedById_none {decide' : Bool} {name : CardName}
    {ps ps' : List Player} {pid : Nat}
    (h : askUseNamedById decide' name ps pid = (none, ps')) : ps' = ps := by
  unfold askUseNamedById at h
  cases hg : getPlayer ps pid with
  | none =>
    rw [hg] at h
    injection h with _ h
    exact h.symm
  | some p =>
    rw [hg] at h
    dsimp only at h
    cases ha : askUseNamed decide' name p with
    | mk oc p' =>
      rw [ha] at h
      cases oc with
      | none =>
        dsimp only at h
        injection h with _ h
        exact h.symm
      | some c =>
        dsimp only at h
        injection h with h _
        exact absurd h (by simp)

/-- A granted by-id query hands over a card of the requested name taken from
the first matching player's hand, which loses exactly that card. -/
theorem askUseNamedById_some {decide' : Bool} {name : CardName}
    {ps ps' : List Player} {pid : Nat} {c : Card}
    (h : askUseNamedById decide' name ps pid = (some c, ps')) :
    c.name = name ∧ ∃ p, getPlayer ps pid = some p ∧ c ∈ p.handCards ∧
      ps' = updateFirst ps pid
        (fun _ => { p with handCards := p.handCards.erase c }) := by
  unfold askUseNamedById at h
  cases hg : getPlayer ps pid with
  | none =>
    rw [hg] at h
    injection h with h _
    exact absurd h (by simp)
  | some p =>
    rw [hg] at h
    dsimp only at h
    cases ha : askUseNamed decide' name p with
    | mk oc p' =>
      rw [ha] at h
      cases oc with
      | none =>
        dsimp only at h
        injection h with h _
        exact absurd h (by simp)
      | some c0 =>
        dsimp only at h
        injection h with h1 h2
        injection h1 with h1
        unfold askUseNamed at ha
        cases hfc : p.handCards.filter (fun x => x.name == name) with
        | nil =>
          rw [hfc] at ha
          exact absurd ha (by simp)
        | cons c1 rest =>
          rw [hfc] at ha
          by_cases hd : decide' = true
          · rw [hd] at ha
            simp only [if_true] at ha
            injection ha with ha1 ha2
            injection ha1 with ha1
            have hceq : c1 = c := by rw [ha1, h1]
            have hcmem : c1 ∈ p.handCards.filter (fun x => x.name == name) := by
              rw [hfc]; exact List.mem_cons_self _ _
            rw [List.mem_filter] at hcmem
            refine ⟨?_, p, rfl, ?_, ?_⟩
            · rw [← hceq]; simpa using hcmem.2
            · rw [← hceq]; exact hcmem.1
            · rw [← h2, ← ha2, hceq]
          · rw [Bool.eq_false_iff.mpr hd] at ha
            simp only [if_false, ite_false] at ha
            exact absurd ha (by simp)

/-- The dying process leaves the zero-hp actor either dead or rescued back to
exactly 1 hp. -/
theorem handleDyingProcess_dichotomy (o : Oracle) (s : GState) (g : Bool)
    (dyingId : Nat) (p : Player) (hp : getPlayer s.players dyingId = some p)
    (hhp : p.currentHp = 0) (hmax : 1 ≤ p.maxHp)
    (halive : p.status = PlayerStatus.alive) :
    ∃ p', getPlayer (handleDyingProcess o s g dyingId).1.players dyingId
        = some p' ∧
      (p'.status = PlayerStatus.dead ∨
       (p'.status = PlayerStatus.alive ∧ p'.currentHp = 1)) := by
  have hpid : p.playerId = dyingId := getPlayer_id hp
  have hnot : ¬ p.currentHp > 0 := by rw [hhp]; exact lt_irrefl 0
  cases hfc : p.handCards.filter (fun c => c.name == CardName.tao) with
  | nil =>
    have hstep : handleDyingProcess o s g dyingId =
        (dieOp o s dyingId, g || gameOver (dieOp o s dyingId).players) := by
      unfold handleDyingProcess
      rw [hp]
      dsimp only
      rw [if_neg hnot, askUseNamed_none (Or.inl hfc)]
    rw [hstep]
    obtain ⟨p', hg', hdead, -, -, -⟩ := dieOp_spec o s dyingId p hp
    exact ⟨p', hg', Or.inl hdead⟩
  | cons t rest =>
    by_cases htao : o.useTao p.playerId = true
    · have hstep : handleDyingProcess o s g dyingId =
          ({ players := updateFirst
              (updateFirst s.players dyingId
                (fun _ => { p with handCards := p.handCards.erase t }))
              dyingId (fun q => healPlayer q 1),
             deck := s.deck.discardCard t }, g) := by
        unfold handleDyingProcess askUseNamed
        rw [hp]
        dsimp only
        rw [if_neg hnot, hfc, htao]
        rfl
      rw [hstep]
      dsimp only
      have hg := getPlayer_updateFirst_self (fun q => healPlayer q 1)
        (fun x hx => hx)
        (getPlayer_updateFirst_self
          (fun _ => { p with handCards := p.handCards.erase t })
          (fun x _ => hpid) hp)
      refine ⟨_, hg, Or.inr ⟨halive, ?_⟩⟩
      show min p.maxHp (p.currentHp + 1) = 1
      rw [hhp]
      omega
    · have hstep : handleDyingProcess o s g dyingId =
          (dieOp o s dyingId, g || gameOver (dieOp o s dyingId).players) := by
        unfold handleDyingProcess
        rw [hp]
        dsimp only
        rw [if_neg hnot,
          askUseNamed_none (Or.inr (Bool.eq_false_iff.mpr htao))]
      rw [hstep]
      obtain ⟨p', hg', hdead, -, -, -⟩ := dieOp_spec o s dyingId p hp
      exact ⟨p', hg', Or.inl hdead⟩

/-- The decline arm of the duel: the queried participant takes exactly 1
damage attributed to the other participant, the Duel card is discarded, and a
lethal hit hands over to the dying process. -/
theorem duelDecline_spec (o : Oracle) (card : Card) (s : GState) (g : Bool)
    (curId defId : Nat) (cp : Player)
    (hcur : getPlayer s.players curId = some cp) :
    (duelDecline o card s g curId defId).loserId = curId ∧
    (duelDecline o card s g curId defId).shaPlayed = [] ∧
    (1 < cp.currentHp →
      ∃ l', getPlayer (duelDecline o card s g curId defId).state.players
          curId = some l' ∧
        l'.currentHp = cp.currentHp - 1 ∧ l'.status = cp.status ∧
        l'.lastDamageSource = some defId ∧
        (duelDecline o card s g curId defId).state.deck.discardPile
          = s.deck.discardPile ++ [card] ∧
        (duelDecline o card s g curId defId).gameEnded = g) ∧
    (cp.currentHp = 1 → cp.status = PlayerStatus.alive → 1 ≤ cp.maxHp →
      ∃ l', getPlayer (duelDecline o card s g curId defId).state.players
          curId = some l' ∧
        (l'.status = PlayerStatus.dead ∨
         (l'.status = PlayerStatus.alive ∧ l'.currentHp = 1))) := by
  have hdmg : getPlayer (updateFirst s.players curId
      (fun q => takeDamageDefault q 1 (some defId))) curId
      = some (takeDamageDefault cp 1 (some defId)) :=
    getPlayer_updateFirst_self _ (fun x hx => hx) hcur
  unfold duelDecline
  dsimp only
  rw [hdmg]
  dsimp only
  refine ⟨?_, ?_, ?_, ?_⟩
  · by_cases hz : (takeDamageDefault cp 1 (some defId)).currentHp = 0
    · simp only [hz, if_true, ite_true]
    · simp only [hz, if_false, ite_false]
  · by_cases hz : (takeDamageDefault cp 1 (some defId)).currentHp = 0
    · simp only [hz, if_true, ite_true]
    · simp only [hz, if_false, ite_false]
  · intro hhp
    have hz : ¬ (takeDamageDefault cp 1 (some defId)).currentHp = 0 := by
      show ¬ max 0 (cp.currentHp - 1) = 0
      omega
    simp only [hz, if_false, ite_false]
    refine ⟨takeDamageDefault cp 1 (some defId), hdmg, ?_, ?_, ?_, ?_, ?_⟩
    · show max 0 (cp.currentHp - 1) = cp.currentHp - 1
      omega
    all_goals first | rfl | trivial
  · intro hhp hstat hmax
    have hz : (takeDamageDefault cp 1 (some defId)).currentHp = 0 := by
      show max 0 (cp.currentHp - 1) = 0
      omega
    simp only [hz, if_true, ite_true]
    have hdmg0 : (takeDamageDefault cp 1 (some defId)).currentHp = 0 := hz
    obtain ⟨p', hg', hdich⟩ := handleDyingProcess_dichotomy o
      ⟨updateFirst s.players curId
        (fun q => takeDamageDefault q 1 (some defId)),
       s.deck.discardCard card⟩ g curId
      (takeDamageDefault cp 1 (some defId)) hdmg hdmg0 hmax hstat
    cases hdy : handleDyingProcess o
        ⟨updateFirst s.players curId
          (fun q => takeDamageDefault q 1 (some defId)),
         s.deck.discardCard card⟩ g curId with
    | mk s₃ g₃ =>
      rw [hdy] at hg'
      exact ⟨p', hg', hdich⟩

/-- Fuel-indexed behaviour of the duel loop: the loser is the participant
queried first iff the number of Attack cards played is even (strict
alternation starting from the first-queried participant); every played card
is an Attack card; when the loser survives, he lost exactly 1 hp, the damage
is attributed to the other participant, and the discard pile gained exactly
the played Attacks in order followed by the Duel card; a lethal hit ends in
the dying dichotomy. -/
theorem duelLoopAux_spec (o : Oracle) (card : Card) :
    ∀ (fuel : Nat) (s : GState) (g : Bool) (curId defId round : Nat)
      (cp dp : Player),
      getPlayer s.players curId = some cp →
      getPlayer s.players defId = some dp →
      curId ≠ defId →
      (let r := duelLoopAux o card fuel s g curId defId round
       let lrec := if r.shaPlayed.length % 2 = 0 then cp else dp
       let wid := if r.shaPlayed.length % 2 = 0 then defId else curId
       (r.loserId = if r.shaPlayed.length % 2 = 0 then curId else defId) ∧
       (∀ c ∈ r.shaPlayed, c.name = CardName.sha) ∧
       (1 < lrec.currentHp →
         ∃ l', getPlayer r.state.players r.loserId = some l' ∧
           l'.currentHp = lrec.currentHp - 1 ∧ l'.status = lrec.status ∧
           l'.lastDamageSource = some wid ∧
           r.state.deck.discardPile
             = s.deck.discardPile ++ r.shaPlayed ++ [card] ∧
           r.gameEnded = g) ∧
       (lrec.currentHp = 1 → lrec.status = PlayerStatus.alive →
         1 ≤ lrec.maxHp →
         ∃ l', getPlayer r.state.players r.loserId = some l' ∧
           (l'.status = PlayerStatus.dead ∨
            (l'.status = PlayerStatus.alive ∧ l'.currentHp = 1)))) := by
  intro fuel
  induction fuel with
  | zero =>
    intro s g curId defId round cp dp hcur hdef hne
    obtain ⟨hl, hsp, hnl, hlt⟩ := duelDecline_spec o card s g curId defId cp hcur
    dsimp only [duelLoopAux]
    rw [hsp]
    have hc0 : (([] : List Card).length % 2 = 0) := by simp
    simp only [if_pos hc0, List.append_nil, hl]
    exact ⟨trivial, by simp, hnl, hlt⟩
  | succ n ih =>
    intro s g curId defId round cp dp hcur hdef hne
    cases hask : askUseNamedById (o.useSha curId round) CardName.sha
        s.players curId with
    | mk oc ps' =>
      cases oc with
      | none =>
        have hstep : duelLoopAux o card (n + 1) s g curId defId round
            = duelDecline o card s g curId defId := by
          rw [duelLoopAux]
          rw [hask]
        obtain ⟨hl, hsp, hnl, hlt⟩ :=
          duelDecline_spec o card s g curId defId cp hcur
        rw [hstep]
        dsimp only
        rw [hsp]
        have hc0 : (([] : List Card).length % 2 = 0) := by simp
        simp only [if_pos hc0, List.append_nil, hl]
        exact ⟨trivial, by simp, hnl, hlt⟩
      | some c =>
        obtain ⟨hcname, p, hgp, hchand, hps'⟩ := askUseNamedById_some hask
        rw [hcur] at hgp
        injection hgp with hgp
        subst hgp
        have hcurid : cp.playerId = curId := getPlayer_id hcur
        have hdef' : getPlayer ps' defId = some dp := by
          rw [hps']
          rw [getPlayer_updateFirst_ne
            (fun _ => { cp with handCards := cp.handCards.erase c })
            (fun x _ => hcurid) (Ne.symm hne)]
          exact hdef
        have hcur' : getPlayer ps' curId
            = some { cp with handCards := cp.handCards.erase c } := by
          rw [hps']
          exact getPlayer_updateFirst_self
            (fun _ => { cp with handCards := cp.handCards.erase c })
            (fun x _ => hcurid) hcur
        have hstep : duelLoopAux o card (n + 1) s g curId defId round
            = { duelLoopAux o card n ⟨ps', s.deck.discardCard c⟩ g defId
                  curId (round + 1) with
                shaPlayed := c :: (duelLoopAux o card n
                  ⟨ps', s.deck.discardCard c⟩ g defId curId
                  (round + 1)).shaPlayed } := by
          rw [duelLoopAux]
          rw [hask]
        obtain ⟨ih1, ih2, ih3, ih4⟩ := ih ⟨ps', s.deck.discardCard c⟩ g
          defId curId (round + 1) dp
          { cp with handCards := cp.handCards.erase c } hdef' hcur'
          (Ne.symm hne)
        rw [hstep]
        dsimp only
        rw [List.length_cons]
        by_cases hpar : (duelLoopAux o card n ⟨ps', s.deck.discardCard c⟩ g
            defId curId (round + 1)).shaPlayed.length % 2 = 0
        · have hpar1 : ¬ ((duelLoopAux o card n ⟨ps', s.deck.discardCard c⟩
              g defId curId (round + 1)).shaPlayed.length + 1) % 2 = 0 := by
            omega
          simp only [if_pos hpar] at ih1 ih3 ih4
          simp only [if_neg hpar1]
          refine ⟨ih1, ?_, ?_, ih4⟩
          · intro c' hc'
            rcases List.mem_cons.mp hc' with rfl | hc'
            · exact hcname
            · exact ih2 c' hc'
          · intro hhp
            obtain ⟨l', ha, hb, hc0, hd, he, hf⟩ := ih3 hhp
            refine ⟨l', ha, hb, hc0, hd, ?_, hf⟩
            rw [he]
            simp [Deck.discardCard]
        · have hpar1 : ((duelLoopAux o card n ⟨ps', s.deck.discardCard c⟩
              g defId curId (round + 1)).shaPlayed.length + 1) % 2 = 0 := by
            omega
          simp only [if_neg hpar] at ih1 ih3 ih4
          simp only [if_pos hpar1]
          refine ⟨ih1, ?_, ?_, ih4⟩
          · intro c' hc'
            rcases List.mem_cons.mp hc' with rfl | hc'
            · exact hcname
            · exact ih2 c' hc'
          · intro hhp
            obtain ⟨l', ha, hb, hc0, hd, he, hf⟩ := ih3 hhp
            refine ⟨l', ha, hb, hc0, hd, ?_, hf⟩
            rw [he]
            simp [Deck.discardCard]

/-- Claim C5: a Duel that survives its negation chain dispatches to the
alternating loop on the post-chain state (final conjunct), in which the two
participants are queried for an Attack card in strict alternation starting
with the chosen target: the loser is the target iff the number of played
Attack cards is even; every played card is an Attack and is discarded — a
surviving loser lost exactly 1 hp, attributed to the other participant, with
the played Attacks and then the Duel card appended to the discard pile in
order, and the loop has ended; a lethal decline runs the dying check, ending
dead or rescued at exactly 1 hp. -/
theorem C5_duel (o : Oracle) (card : Card) (s : GState) (g : Bool)
    (targetId attackerId : Nat) (tp ap : Player)
    (htp : getPlayer s.players targetId = some tp)
    (hap : getPlayer s.players attackerId = some ap)
    (hne : targetId ≠ attackerId) :
    (let r := duelRun o card s g targetId attackerId
     let lrec := if r.shaPlayed.length % 2 = 0 then tp else ap
     let wid := if r.shaPlayed.length % 2 = 0 then attackerId else targetId
     (r.loserId
        = if r.shaPlayed.length % 2 = 0 then targetId else attackerId) ∧
     (∀ c ∈ r.shaPlayed, c.name = CardName.sha) ∧
     (1 < lrec.currentHp →
       ∃ l', getPlayer r.state.players r.loserId = some l' ∧
         l'.currentHp = lrec.currentHp - 1 ∧ l'.status = lrec.status ∧
         l'.lastDamageSource = some wid ∧
         r.state.deck.discardPile
           = s.deck.discardPile ++ r.shaPlayed ++ [card] ∧
         r.gameEnded = g) ∧
     (lrec.currentHp = 1 → lrec.status = PlayerStatus.alive →
       1 ≤ lrec.maxHp →
       ∃ l', getPlayer r.state.players r.loserId = some l' ∧
         (l'.status = PlayerStatus.dead ∨
          (l'.status = PlayerStatus.alive ∧ l'.currentHp = 1)))) ∧
    (tp.isAlive = true →
      ∀ s₁ played, askWuXieKeJi o s attackerId true = (true, s₁, played) →
        jueDouHandle o s g attackerId card [targetId]
          = ((duelRun o card s₁ g targetId attackerId).state,
             (duelRun o card s₁ g targetId attackerId).gameEnded)) := by
  constructor
  · exact duelLoopAux_spec o card (totalSha s.players + 1) s g targetId
      attackerId 1 tp ap htp hap hne
  · intro halive s₁ played hchain
    unfold jueDouHandle
    dsimp only
    rw [htp, hap]
    dsimp only
    rw [halive]
    simp only [Bool.not_true, Bool.false_eq_true, if_false, ite_false]
    rw [hchain]
    simp only [Bool.not_true, Bool.false_eq_true, if_false, ite_false]

theorem rosterCardsM_updateFirst {ps : List Player} {pid : Nat} {p : Player}
    (f : Player → Player) (h : getPlayer ps pid = some p) :
    rosterCardsM (updateFirst ps pid f) + playerCardsM p
      = rosterCardsM ps + playerCardsM (f p) := by
  induction ps with
  | nil => simp [getPlayer] at h
  | cons q ps ih =>
    by_cases hq : q.playerId = pid
    · rw [getPlayer_cons_pos hq] at h
      injection h with h
      subst h
      rw [updateFirst_cons_pos hq]
      show playerCardsM (f q) + rosterCardsM ps + playerCardsM q
        = playerCardsM q + rosterCardsM ps + playerCardsM (f q)
      simp only [add_comm, add_left_comm, add_assoc]
    · rw [getPlayer_cons_neg hq] at h
      rw [updateFirst_cons_neg hq]
      show playerCardsM q + rosterCardsM (updateFirst ps pid f) + playerCardsM p
        = playerCardsM q + rosterCardsM ps + playerCardsM (f p)
      rw [add_assoc, ih h, add_assoc]

/-- A list keeps its multiset when an erased member is put back. -/
theorem coe_erase_add {l : List Card} {c : Card} (hc : c ∈ l) :
    ((l.erase c : List Card) : Multiset Card) + {c} = (l : Multiset Card) := by
  have hperm : l.Perm (c :: l.erase c) := List.perm_cons_erase hc
  have hq : (l : Multiset Card) = ((c :: l.erase c : List Card) : Multiset Card) :=
    Quot.sound hperm
  rw [hq, ← Multiset.cons_coe, ← Multiset.singleton_add, add_comm]

/-- Deck-level conservation of a single draw. -/
theorem drawCard_conserves (sh : List Card → List Card)
    (hperm : ∀ l, (sh l).Perm l) (d : Deck) (oc : Option Card) (d' : Deck)
    (h : Deck.drawCard sh d = (oc, d')) :
    (match oc with | some c => ({c} : Multiset Card) | none => 0)
      + (d'.cards : Multiset Card) + (d'.discardPile : Multiset Card)
      = (d.cards : Multiset Card) + (d.discardPile : Multiset Card) := by
  unfold Deck.drawCard at h
  by_cases h1 : (d.cards.isEmpty && !d.discardPile.isEmpty) = true
  · obtain ⟨hce, hde⟩ := Bool.and_eq_true_iff.mp h1
    have hcnil : d.cards = [] := by simpa using hce
    have hsh : ((sh d.discardPile : List Card) : Multiset Card)
        = (d.discardPile : Multiset Card) := Quot.sound (hperm _)
    simp only [h1, if_true, ite_true] at h
    cases hshl : sh d.discardPile with
    | nil =>
      rw [hshl] at h hsh
      dsimp only at h
      injection h with h2 h3
      subst h2
      subst h3
      simp [hcnil, ← hsh]
    | cons c rest =>
      rw [hshl] at h hsh
      dsimp only at h
      injection h with h2 h3
      subst h2
      subst h3
      rw [← Multiset.cons_coe, ← Multiset.singleton_add] at hsh
      dsimp only
      rw [hcnil]
      simp only [Multiset.coe_nil, zero_add]
      rw [← hsh]
      simp [add_comm, add_left_comm, add_assoc]
  · simp only [h1, Bool.false_eq_true, if_false, ite_false] at h
    cases hdc : d.cards with
    | nil =>
      rw [hdc] at h
      dsimp only at h
      injection h with h2 h3
      subst h2
      subst h3
      simp [hdc]
    | cons c rest =>
      rw [hdc] at h
      dsimp only at h
      injection h with h2 h3
      subst h2
      subst h3
      rw [← Multiset.cons_coe, ← Multiset.singleton_add]

/-- Deck-level conservation of a multi-card draw. -/
theorem drawCards_conserves (sh : List Card → List Card)
    (hperm : ∀ l, (sh l).Perm l) :
    ∀ (n : Nat) (d : Deck) (cs : List Card) (d' : Deck),
      Deck.drawCards sh n d = (cs, d') →
      ((cs : List Card) : Multiset Card) + (d'.cards : Multiset Card)
        + (d'.discardPile : Multiset Card)
        = (d.cards : Multiset Card) + (d.discardPile : Multiset Card) := by
  intro n
  induction n with
  | zero =>
    intro d cs d' h
    unfold Deck.drawCards at h
    injection h with h2 h3
    subst h2
    subst h3
    simp
  | succ m ih =>
    intro d cs d' h
    unfold Deck.drawCards at h
    cases hdraw : Deck.drawCard sh d with
    | mk oc d₁ =>
      rw [hdraw] at h
      have hone := drawCard_conserves sh hperm d oc d₁ hdraw
      cases oc with
      | none =>
        dsimp only at h hone
        injection h with h2 h3
        subst h2
        subst h3
        simpa using hone
      | some c =>
        dsimp only at h hone
        cases hrec : Deck.drawCards sh m d₁ with
        | mk cs₁ d₂ =>
          rw [hrec] at h
          dsimp only at h
          injection h with h2 h3
          subst h2
          subst h3
          have hr := ih d₁ cs₁ d₂ hrec
          rw [← Multiset.cons_coe, ← Multiset.singleton_add]
          calc ({c} : Multiset Card) + ↑cs₁ + ↑d₂.cards + ↑d₂.discardPile
              = {c} + (↑cs₁ + ↑d₂.cards + ↑d₂.discardPile) := by
                rw [add_assoc, add_assoc, add_assoc]
            _ = {c} + (↑d₁.cards + ↑d₁.discardPile) := by rw [hr]
            _ = {c} + ↑d₁.cards + ↑d₁.discardPile := by rw [add_assoc]
            _ = ↑d.cards + ↑d.discardPile := hone

theorem coe_append_add (l₁ l₂ : List Card) :
    ((l₁ ++ l₂ : List Card) : Multiset Card)
      = (l₁ : Multiset Card) + (l₂ : Multiset Card) := by
  induction l₁ with
  | nil => simp
  | cons c l ih =>
    rw [List.cons_append, ← Multiset.cons_coe, ← Multiset.cons_coe, ih]
    simp [Multiset.cons_add]

theorem stateCardsM_discard (ps : List Player) (d : Deck) (c : Card) :
    stateCardsM ⟨ps, d.discardCard c⟩ = stateCardsM ⟨ps, d⟩ + {c} := by
  unfold stateCardsM Deck.discardCard
  dsimp only
  rw [coe_append_add, Multiset.coe_singleton]
  abel

theorem stateCardsM_foldl_discard (ps : List Player) (d : Deck)
    (l : List Card) :
    stateCardsM ⟨ps, l.foldl Deck.discardCard d⟩
      = stateCardsM ⟨ps, d⟩ + (l : Multiset Card) := by
  obtain ⟨h1, h2⟩ := foldl_discardCard l d
  unfold stateCardsM
  dsimp only
  rw [h1, h2, coe_append_add]
  abel

theorem rosterCardsM_update_same {ps : List Player} {pid : Nat} {p : Player}
    (f : Player → Player) (h : getPlayer ps pid = some p)
    (hsame : playerCardsM (f p) = playerCardsM p) :
    rosterCardsM (updateFirst ps pid f) = rosterCardsM ps := by
  have := rosterCardsM_updateFirst f h
  rw [hsame] at this
  exact add_right_cancel this

theorem rosterCardsM_update_none {ps : List Player} {pid : Nat}
    (f : Player → Player) (h : getPlayer ps pid = none) :
    rosterCardsM (updateFirst ps pid f) = rosterCardsM ps := by
  rw [updateFirst_of_not_found f h]

/-- Conservation for Player.draw_card(count): the drawn cards move from the
deck to the drawing player's hand. -/
theorem drawCardsToHand_conserves (o : Oracle) (s : GState) (pid : Nat)
    (n : Nat) (p : Player) (hperm : ∀ l, (o.shuffle l).Perm l)
    (hp : getPlayer s.players pid = some p) :
    stateCardsM (drawCardsToHand o s pid n) = stateCardsM s := by
  unfold drawCardsToHand
  cases hdraw : Deck.drawCards o.shuffle n s.deck with
  | mk cs d' =>
    have hd := drawCards_conserves o.shuffle hperm n s.deck cs d' hdraw
    dsimp only
    have hupd := rosterCardsM_updateFirst
      (fun q => { q with handCards := q.handCards ++ cs }) hp
    unfold stateCardsM
    dsimp only
    have hpc : playerCardsM { p with handCards := p.handCards ++ cs }
        = playerCardsM p + (cs : Multiset Card) := by
      unfold playerCardsM
      dsimp only
      rw [coe_append_add]
      simp [add_comm, add_left_comm, add_assoc]
    rw [hpc] at hupd
    have : rosterCardsM (updateFirst s.players pid
        (fun q => { q with handCards := q.handCards ++ cs }))
        = rosterCardsM s.players + (cs : Multiset Card) := by
      have h2 : rosterCardsM (updateFirst s.players pid
          (fun q => { q with handCards := q.handCards ++ cs }))
            + playerCardsM p
          = (rosterCardsM s.players + (cs : Multiset Card)) + playerCardsM p := by
        rw [hupd]
        abel
      exact add_right_cancel h2
    rw [this]
    calc (d'.cards : Multiset Card) + ↑d'.discardPile
          + (rosterCardsM s.players + ↑cs)
        = (↑cs + ↑d'.cards + ↑d'.discardPile) + rosterCardsM s.players := by
          abel
      _ = (↑s.deck.cards + ↑s.deck.discardPile) + rosterCardsM s.players := by
          rw [hd]
      _ = ↑s.deck.cards + ↑s.deck.discardPile + rosterCardsM s.players := rfl

/-- Conservation for the discard-phase removal loop. -/
theorem discardSelected_conserves :
    ∀ (sel hand : List Card) (d : Deck) (hand' : List Card) (d' : Deck),
      discardSelected sel hand d = (hand', d') →
      ((hand' : List Card) : Multiset Card) + (d'.discardPile : Multiset Card)
          = (hand : Multiset Card) + (d.discardPile : Multiset Card) ∧
        d'.cards = d.cards := by
  intro sel
  induction sel with
  | nil =>
    intro hand d hand' d' h
    unfold discardSelected at h
    injection h with h2 h3
    subst h2
    subst h3
    exact ⟨rfl, rfl⟩
  | cons c rest ih =>
    intro hand d hand' d' h
    unfold discardSelected at h
    by_cases hc : hand.contains c
    · rw [if_pos hc] at h
      obtain ⟨h1, h2⟩ := ih (hand.erase c) (d.discardCard c) hand' d' h
      have hcmem : c ∈ hand := by simpa using hc
      refine ⟨?_, by simpa [Deck.discardCard] using h2⟩
      rw [h1]
      show ((hand.erase c : List Card) : Multiset Card)
          + ((d.discardPile ++ [c] : List Card) : Multiset Card)
        = (hand : Multiset Card) + ↑d.discardPile
      rw [coe_append_add, ← coe_erase_add hcmem]
      simp [add_comm, add_left_comm, add_assoc]
    · rw [if_neg hc] at h
      exact ih hand d hand' d' h

/-- Moving a deck alongside an update of one player: the account balances
against the pre- and post-update cards of that player. -/
theorem stateCardsM_update (ps : List Player) (d : Deck) (pid : Nat)
    (p : Player) (f : Player → Player) (hp : getPlayer ps pid = some p) :
    stateCardsM ⟨updateFirst ps pid f, d⟩ + playerCardsM p
      = stateCardsM ⟨ps, d⟩ + playerCardsM (f p) := by
  unfold stateCardsM
  dsimp only
  have h := rosterCardsM_updateFirst f hp
  calc (d.cards : Multiset Card) + ↑d.discardPile
      + rosterCardsM (updateFirst ps pid f) + playerCardsM p
      = (d.cards : Multiset Card) + ↑d.discardPile
        + (rosterCardsM (updateFirst ps pid f) + playerCardsM p) := by
        abel
    _ = (d.cards : Multiset Card) + ↑d.discardPile
        + (rosterCardsM ps + playerCardsM (f p)) := by rw [h]
    _ = (d.cards : Multiset Card) + ↑d.discardPile + rosterCardsM ps
        + playerCardsM (f p) := by abel

/-- Conservation for Player.discard_card_default: excess cards move from the
hand to the discard pile, whatever the Oracle selects. -/
theorem discardPhase_conserves (o : Oracle) (s : GState) (pid : Nat) :
    stateCardsM (discardPhase o s pid) = stateCardsM s := by
  unfold discardPhase
  cases hp : getPlayer s.players pid with
  | none => rfl
  | some p =>
    dsimp only
    by_cases hlen : (p.handCards.length : Int) ≤ p.currentHp
    · rw [if_pos hlen]
    · rw [if_neg hlen]
      cases hds : discardSelected
          (o.selectDiscard p.handCards
            ((p.handCards.length : Int) - p.currentHp).toNat)
          p.handCards s.deck with
      | mk hand' d' =>
        obtain ⟨h1, h2⟩ := discardSelected_conserves _ _ _ _ _ hds
        dsimp only
        have key : stateCardsM ⟨updateFirst s.players pid
              (fun q => { q with handCards := hand' }), d'⟩
            + playerCardsM p
            = stateCardsM s + playerCardsM p := by
          rw [stateCardsM_update s.players d' pid p _ hp]
          show stateCardsM ⟨s.players, d'⟩
              + ((hand' : Multiset Card)
                + (p.equipment.cards : Multiset Card))
            = stateCardsM s
              + ((p.handCards : Multiset Card)
                + (p.equipment.cards : Multiset Card))
          unfold stateCardsM
          dsimp only
          rw [h2]
          have hsw : (d'.discardPile : Multiset Card) + ↑hand'
              = (s.deck.discardPile : Multiset Card) + ↑p.handCards := by
            rw [add_comm, h1, add_comm]
          calc (s.deck.cards : Multiset Card) + ↑d'.discardPile
              + rosterCardsM s.players
              + ((hand' : Multiset Card)
                + (p.equipment.cards : Multiset Card))
              = (s.deck.cards : Multiset Card) + rosterCardsM s.players
                + (p.equipment.cards : Multiset Card)
                + ((d'.discardPile : Multiset Card) + ↑hand') := by
                abel
            _ = (s.deck.cards : Multiset Card) + rosterCardsM s.players
                + (p.equipment.cards : Multiset Card)
                + ((s.deck.discardPile : Multiset Card) + ↑p.handCards) := by
                rw [hsw]
            _ = (s.deck.cards : Multiset Card) + ↑s.deck.discardPile
                + rosterCardsM s.players
                + ((p.handCards : Multiset Card)
                  + (p.equipment.cards : Multiset Card)) := by
                abel
        exact add_right_cancel key

/-- Erasing a held card from the hand balances against the card itself. -/
theorem playerCardsM_erase (p : Player) (c : Card) (hc : c ∈ p.handCards) :
    playerCardsM { p with handCards := p.handCards.erase c } + {c}
      = playerCardsM p := by
  unfold playerCardsM
  dsimp only
  rw [add_right_comm, coe_erase_add hc]

/-- An update that moves no cards leaves the roster's multiset unchanged,
whether or not the id is seated. -/
theorem rosterCardsM_update_any (ps : List Player) (pid : Nat)
    (f : Player → Player) (hsame : ∀ q, playerCardsM (f q) = playerCardsM q) :
    rosterCardsM (updateFirst ps pid f) = rosterCardsM ps := by
  cases h : getPlayer ps pid with
  | none => exact rosterCardsM_update_none f h
  | some p => exact rosterCardsM_update_same f h (hsame p)

/-- State-level form of rosterCardsM_update_any. -/
theorem stateCardsM_update_any (ps : List Player) (d : Deck) (pid : Nat)
    (f : Player → Player) (hsame : ∀ q, playerCardsM (f q) = playerCardsM q) :
    stateCardsM ⟨updateFirst ps pid f, d⟩ = stateCardsM ⟨ps, d⟩ := by
  unfold stateCardsM
  dsimp only
  rw [rosterCardsM_update_any ps pid f hsame]

/-- One card moving from a seated hand to the discard pile conserves the
global multiset. -/
theorem stateCardsM_update_discard {ps : List Player} {pid : Nat} {p : Player}
    (d : Deck) (f : Player → Player) (c : Card)
    (hp : getPlayer ps pid = some p)
    (hbal : playerCardsM (f p) + {c} = playerCardsM p) :
    stateCardsM ⟨updateFirst ps pid f, d.discardCard c⟩
      = stateCardsM ⟨ps, d⟩ := by
  have h1 := stateCardsM_update ps (d.discardCard c) pid p f hp
  rw [stateCardsM_discard ps d c] at h1
  have h2 : stateCardsM ⟨updateFirst ps pid f, d.discardCard c⟩
        + playerCardsM p
      = stateCardsM ⟨ps, d⟩ + playerCardsM p := by
    rw [h1, ← hbal]
    abel
  exact add_right_cancel h2

/-- Removing a held card from a hand without discarding it leaves the global
multiset one card short: the balance of Player.play_card_default's removal
step. -/
theorem stateCardsM_erase_hand {ps : List Player} {pid : Nat} {p : Player}
    (d : Deck) (c : Card) (hp : getPlayer ps pid = some p)
    (hc : c ∈ p.handCards) :
    stateCardsM ⟨updateFirst ps pid
        (fun q => { q with handCards := q.handCards.erase c }), d⟩ + {c}
      = stateCardsM ⟨ps, d⟩ := by
  have h1 := stateCardsM_update ps d pid p
    (fun q => { q with handCards := q.handCards.erase c }) hp
  have h2 : stateCardsM ⟨updateFirst ps pid
        (fun q => { q with handCards := q.handCards.erase c }), d⟩ + {c}
        + playerCardsM p
      = stateCardsM ⟨ps, d⟩ + playerCardsM p := by
    have hbal := playerCardsM_erase p c hc
    calc stateCardsM ⟨updateFirst ps pid
          (fun q => { q with handCards := q.handCards.erase c }), d⟩ + {c}
          + playerCardsM p
        = (stateCardsM ⟨updateFirst ps pid
            (fun q => { q with handCards := q.handCards.erase c }), d⟩
          + playerCardsM p) + {c} := by abel
      _ = (stateCardsM ⟨ps, d⟩
          + playerCardsM { p with handCards := p.handCards.erase c }) + {c} := by
          rw [h1]
      _ = stateCardsM ⟨ps, d⟩
          + (playerCardsM { p with handCards := p.handCards.erase c } + {c}) := by
          abel
      _ = stateCardsM ⟨ps, d⟩ + playerCardsM p := by rw [hbal]
  exact add_right_cancel h2

/-- The granted arm of ask_use_card: the handed-over card came from the hand,
which loses exactly that card. -/
theorem askUseNamed_some {decide' : Bool} {name : CardName} {p p' : Player}
    {c : Card} (h : askUseNamed decide' name p = (some c, p')) :
    c ∈ p.handCards ∧ c.name = name ∧
      p' = { p with handCards := p.handCards.erase c } := by
  unfold askUseNamed at h
  cases hfc : p.handCards.filter (fun x => x.name == name) with
  | nil =>
    rw [hfc] at h
    exact absurd h (by simp)
  | cons c1 rest =>
    rw [hfc] at h
    by_cases hd : decide' = true
    · rw [hd] at h
      simp only [if_true] at h
      injection h with h1 h2
      injection h1 with h1
      subst h1
      have hcmem : c1 ∈ p.handCards.filter (fun x => x.name == name) := by
        rw [hfc]; exact List.mem_cons_self _ _
      rw [List.mem_filter] at hcmem
      exact ⟨hcmem.1, by simpa using hcmem.2, h2.symm⟩
    · rw [Bool.eq_false_iff.mpr hd] at h
      simp only [if_false, ite_false] at h
      exact absurd h (by simp)

/-- Cards drawn from the deck and appended to a seated hand conserve the
global multiset. -/
theorem drawApply_conserves (sh : List Card → List Card)
    (hperm : ∀ l, (sh l).Perm l) (ps : List Player) (d : Deck) (pid : Nat)
    (p : Player) (n : Nat) (cs : List Card) (d' : Deck)
    (hp : getPlayer ps pid = some p)
    (hdraw : Deck.drawCards sh n d = (cs, d')) :
    stateCardsM ⟨updateFirst ps pid
        (fun q => { q with handCards := q.handCards ++ cs }), d'⟩
      = stateCardsM ⟨ps, d⟩ := by
  have hd := drawCards_conserves sh hperm n d cs d' hdraw
  have h1 := stateCardsM_update ps d' pid p
    (fun q => { q with handCards := q.handCards ++ cs }) hp
  have hpc : playerCardsM { p with handCards := p.handCards ++ cs }
      = playerCardsM p + (cs : Multiset Card) := by
    unfold playerCardsM
    dsimp only
    rw [coe_append_add]
    abel
  rw [hpc] at h1
  have hst : stateCardsM ⟨ps, d'⟩ + (cs : Multiset Card)
      = stateCardsM ⟨ps, d⟩ := by
    unfold stateCardsM
    dsimp only
    calc (d'.cards : Multiset Card) + ↑d'.discardPile + rosterCardsM ps + ↑cs
        = (↑cs + ↑d'.cards + ↑d'.discardPile) + rosterCardsM ps := by abel
      _ = (↑d.cards + ↑d.discardPile) + rosterCardsM ps := by rw [hd]
      _ = ↑d.cards + ↑d.discardPile + rosterCardsM ps := rfl
  have h2 : stateCardsM ⟨updateFirst ps pid
        (fun q => { q with handCards := q.handCards ++ cs }), d'⟩
        + playerCardsM p
      = stateCardsM ⟨ps, d⟩ + playerCardsM p := by
    rw [h1, ← hst]
    abel
  exact add_right_cancel h2

/-- Conservation of the negation chain: each played Counter moves from its
player's hand to the discard pile, so the global multiset never changes. -/
theorem askWuXieAux_conserves (o : Oracle) :
    ∀ (fuel : Nat) (s : GState) (userId : Nat) (pol : Bool),
      (s.players.map Player.playerId).Nodup →
      stateCardsM (askWuXieAux o fuel s userId pol).2.1 = stateCardsM s := by
  intro fuel
  induction fuel with
  | zero => intro s u pol _; rfl
  | succ n ih =>
    intro s u pol hnd
    by_cases halive : (s.players.filter Player.isAlive).isEmpty
    · simp [askWuXieAux, halive]
    · cases hidx : (s.players.filter Player.isAlive).findIdx?
          (fun p => p.playerId == u) with
      | none => simp [askWuXieAux, halive, hidx]
      | some ui =>
        cases hpoll : pollCounter o pol
            ((s.players.filter Player.isAlive).drop ui ++
             (s.players.filter Player.isAlive).take ui) with
        | none => simp [askWuXieAux, halive, hidx, hpoll]
        | some pc =>
          obtain ⟨pid, c⟩ := pc
          obtain ⟨p, hmem, hpid, hchand, _⟩ := pollCounter_some hpoll
          have hstep : askWuXieAux o (n + 1) s u pol =
              (let ps' := updateFirst s.players pid
                (fun q => { q with handCards := q.handCards.erase c })
               let r := askWuXieAux o n ⟨ps', s.deck.discardCard c⟩ pid (!pol)
               (r.1, r.2.1, c :: r.2.2)) := by
            simp [askWuXieAux, halive, hidx, hpoll]
          rw [hstep]
          dsimp only
          have hpmem : p ∈ s.players := by
            rcases List.mem_append.mp hmem with h | h
            · exact List.mem_of_mem_filter (List.mem_of_mem_drop h)
            · exact List.mem_of_mem_filter (List.mem_of_mem_take h)
          have hget : getPlayer s.players pid = some p := by
            rw [← hpid]
            exact getPlayer_of_nodup_mem hnd hpmem
          have hnd' : ((updateFirst s.players pid
              (fun q => { q with handCards := q.handCards.erase c })).map
                Player.playerId).Nodup := by
            rw [map_playerId_updateFirst s.players pid
              (fun q => { q with handCards := q.handCards.erase c })
              (fun x => rfl)]
            exact hnd
          rw [ih ⟨updateFirst s.players pid
              (fun q => { q with handCards := q.handCards.erase c }),
             s.deck.discardCard c⟩ pid (!pol) hnd']
          exact stateCardsM_update_discard s.deck _ c hget
            (playerCardsM_erase p c hchand)

/-- The negation chain conserves the global multiset. -/
theorem askWuXieKeJi_conserves (o : Oracle) (s : GState) (userId : Nat)
    (pol : Bool) (hnd : (s.players.map Player.playerId).Nodup) :
    stateCardsM (askWuXieKeJi o s userId pol).2.1 = stateCardsM s := by
  unfold askWuXieKeJi
  exact askWuXieAux_conserves o (totalCounters s.players + 1) s userId pol hnd

/-- Discarding a seated player's whole hand and equipment (the lord forfeit
and the death cleanup share this shape) conserves the global multiset. -/
theorem forfeit_conserves (ps : List Player) (d : Deck) (pid : Nat)
    (p : Player) (hp : getPlayer ps pid = some p) :
    stateCardsM ⟨updateFirst
        (updateFirst ps pid (fun q => { q with handCards := [] })) pid
        (fun q => { q with equipment := Equipment.empty }),
      p.equipment.cards.foldl Deck.discardCard
        (p.handCards.foldl Deck.discardCard d)⟩
      = stateCardsM ⟨ps, d⟩ := by
  have hp1 : getPlayer
      (updateFirst ps pid (fun q => { q with handCards := [] })) pid
      = some { p with handCards := ([] : List Card) } :=
    getPlayer_updateFirst_self _ (fun x hx => hx) hp
  have hu2 := stateCardsM_update
    (updateFirst ps pid (fun q => { q with handCards := [] }))
    (p.handCards.foldl Deck.discardCard d) pid
    { p with handCards := ([] : List Card) }
    (fun q => { q with equipment := Equipment.empty }) hp1
  have hpcA : playerCardsM { p with handCards := ([] : List Card) }
      = (p.equipment.cards : Multiset Card) := by
    simp [playerCardsM]
  have hpcB : playerCardsM
      { p with handCards := ([] : List Card),
               equipment := Equipment.empty } = 0 := by
    simp [playerCardsM, Equipment.empty, Equipment.cards]
  rw [hpcA, hpcB, add_zero] at hu2
  have hu1 := stateCardsM_update ps d pid p
    (fun q => { q with handCards := [] }) hp
  rw [hpcA] at hu1
  have hf1 := stateCardsM_foldl_discard
    (updateFirst (updateFirst ps pid (fun q => { q with handCards := [] }))
      pid (fun q => { q with equipment := Equipment.empty }))
    (p.handCards.foldl Deck.discardCard d) p.equipment.cards
  have hf2 := stateCardsM_foldl_discard
    (updateFirst ps pid (fun q => { q with handCards := [] })) d p.handCards
  have key : stateCardsM ⟨updateFirst
        (updateFirst ps pid (fun q => { q with handCards := [] })) pid
        (fun q => { q with equipment := Equipment.empty }),
      p.equipment.cards.foldl Deck.discardCard
        (p.handCards.foldl Deck.discardCard d)⟩ + playerCardsM p
      = stateCardsM ⟨ps, d⟩ + playerCardsM p := by
    calc stateCardsM ⟨updateFirst
          (updateFirst ps pid (fun q => { q with handCards := [] })) pid
          (fun q => { q with equipment := Equipment.empty }),
        p.equipment.cards.foldl Deck.discardCard
          (p.handCards.foldl Deck.discardCard d)⟩ + playerCardsM p
        = (stateCardsM ⟨updateFirst
            (updateFirst ps pid (fun q => { q with handCards := [] })) pid
            (fun q => { q with equipment := Equipment.empty }),
          p.handCards.foldl Deck.discardCard d⟩
          + (p.equipment.cards : Multiset Card)) + playerCardsM p := by
          rw [hf1]
      _ = stateCardsM ⟨updateFirst ps pid (fun q => { q with handCards := [] }),
          p.handCards.foldl Deck.discardCard d⟩ + playerCardsM p := by
          rw [hu2]
      _ = (stateCardsM ⟨updateFirst ps pid
            (fun q => { q with handCards := [] }), d⟩
          + (p.handCards : Multiset Card)) + playerCardsM p := by
          rw [hf2]
      _ = (stateCardsM ⟨updateFirst ps pid
            (fun q => { q with handCards := [] }), d⟩
          + playerCardsM p) + (p.handCards : Multiset Card) := by
          abel
      _ = (stateCardsM ⟨ps, d⟩ + (p.equipment.cards : Multiset Card))
          + (p.handCards : Multiset Card) := by
          rw [hu1]
      _ = stateCardsM ⟨ps, d⟩
          + ((p.handCards : Multiset Card)
            + (p.equipment.cards : Multiset Card)) := by
          abel
      _ = stateCardsM ⟨ps, d⟩ + playerCardsM p := rfl
  exact add_right_cancel key

/-- The death rewards and penalties conserve the global multiset: the lord
forfeit moves cards to the discard pile and the rebel bounty moves cards from
the deck to a hand. -/
theorem deathConsequences_conserves (o : Oracle) (ps : List Player) (d : Deck)
    (vid : Nat) (ps' : List Player) (d' : Deck)
    (hperm : ∀ l, (o.shuffle l).Perm l)
    (h : deathConsequences o ps d vid = (ps', d')) :
    stateCardsM ⟨ps', d'⟩ = stateCardsM ⟨ps, d⟩ := by
  unfold deathConsequences at h
  cases hv : getPlayer ps vid with
  | none =>
    rw [hv] at h
    injection h with h1 h2
    rw [← h1, ← h2]
  | some victim =>
    rw [hv] at h
    dsimp only at h
    cases hk : victim.lastDamageSource with
    | none =>
      rw [hk] at h
      dsimp only at h
      injection h with h1 h2
      rw [← h1, ← h2]
    | some killerId =>
      rw [hk] at h
      dsimp only at h
      cases hkp : getPlayer ps killerId with
      | none =>
        rw [hkp] at h
        dsimp only at h
        injection h with h1 h2
        rw [← h1, ← h2]
      | some killer =>
        rw [hkp] at h
        dsimp only at h
        by_cases halv : (!killer.isAlive) = true
        · rw [if_pos halv] at h
          injection h with h1 h2
          rw [← h1, ← h2]
        · rw [if_neg halv] at h
          by_cases hll : (victim.identity == PlayerIdentity.loyalist &&
              killer.identity == PlayerIdentity.lord) = true
          · rw [if_pos hll] at h
            injection h with h1 h2
            rw [← h1, ← h2]
            exact forfeit_conserves ps d killerId killer hkp
          · rw [if_neg hll] at h
            by_cases hrb : (victim.identity == PlayerIdentity.rebel) = true
            · rw [if_pos hrb] at h
              by_cases hgo : gameOver ps = true
              · rw [if_pos hgo] at h
                injection h with h1 h2
                rw [← h1, ← h2]
              · rw [if_neg hgo] at h
                cases hdraw : Deck.drawCards o.shuffle 3 d with
                | mk drawn d₂ =>
                  rw [hdraw] at h
                  dsimp only at h
                  injection h with h1 h2
                  rw [← h1, ← h2]
                  exact drawApply_conserves o.shuffle hperm ps d killerId
                    killer 3 drawn d₂ hkp hdraw
            · rw [if_neg hrb] at h
              injection h with h1 h2
              rw [← h1, ← h2]

/-- Player.die conserves the global multiset: the status flip moves nothing,
the consequences conserve, and the cleanup moves hand and equipment to the
discard pile. -/
theorem dieOp_conserves (o : Oracle) (s : GState) (vid : Nat)
    (hperm : ∀ l, (o.shuffle l).Perm l) :
    stateCardsM (dieOp o s vid) = stateCardsM s := by
  unfold dieOp
  cases hv : getPlayer s.players vid with
  | none => rfl
  | some p0 =>
    dsimp only
    cases hdc : deathConsequences o
        (updateFirst s.players vid
          (fun p => { p with status := PlayerStatus.dead, currentHp := 0 }))
        s.deck vid with
    | mk ps₂ d₂ =>
      dsimp only
      have hstep1 : stateCardsM ⟨ps₂, d₂⟩ = stateCardsM s := by
        rw [deathConsequences_conserves o _ s.deck vid ps₂ d₂ hperm hdc]
        exact stateCardsM_update_any s.players s.deck vid _ (fun q => rfl)
      cases hv2 : getPlayer ps₂ vid with
      | none => exact hstep1
      | some v =>
        dsimp only
        rw [forfeit_conserves ps₂ d₂ vid v hv2]
        exact hstep1

/-- The dying process conserves the global multiset: a played Heal moves to
the discard pile, a death runs the conserving cleanup. -/
theorem handleDyingProcess_conserves (o : Oracle) (s : GState) (g : Bool)
    (pid : Nat) (hperm : ∀ l, (o.shuffle l).Perm l) :
    stateCardsM (handleDyingProcess o s g pid).1 = stateCardsM s := by
  unfold handleDyingProcess
  cases hp : getPlayer s.players pid with
  | none => rfl
  | some p =>
    dsimp only
    by_cases hhp : p.currentHp > 0
    · rw [if_pos hhp]
    · rw [if_neg hhp]
      cases hask : askUseNamed (o.useTao p.playerId) CardName.tao p with
      | mk oc p' =>
        cases oc with
        | some taoC =>
          dsimp only
          obtain ⟨hcmem, _, hp'⟩ := askUseNamed_some hask
          subst hp'
          calc stateCardsM ⟨updateFirst (updateFirst s.players pid
                (fun _ => { p with handCards := p.handCards.erase taoC })) pid
                (fun q => healPlayer q 1), s.deck.discardCard taoC⟩
              = stateCardsM ⟨updateFirst s.players pid
                (fun _ => { p with handCards := p.handCards.erase taoC }),
                s.deck.discardCard taoC⟩ :=
                stateCardsM_update_any _ _ pid _ (fun q => rfl)
            _ = stateCardsM ⟨s.players, s.deck⟩ :=
                stateCardsM_update_discard s.deck _ taoC hp
                  (playerCardsM_erase p taoC hcmem)
        | none =>
          dsimp only
          exact dieOp_conserves o s pid hperm

/-- The duel's decline arm: damage moves no cards, the Duel card lands on the
discard pile, a lethal outcome runs the conserving dying process. -/
theorem duelDecline_conserves (o : Oracle) (card : Card) (s : GState)
    (g : Bool) (curId defId : Nat) (hperm : ∀ l, (o.shuffle l).Perm l) :
    stateCardsM (duelDecline o card s g curId defId).state
      = stateCardsM s + {card} := by
  unfold duelDecline
  dsimp only
  have hps₂ : stateCardsM ⟨updateFirst s.players curId
        (fun q => takeDamageDefault q 1 (some defId)),
        s.deck.discardCard card⟩
      = stateCardsM s + {card} := by
    rw [stateCardsM_update_any s.players (s.deck.discardCard card) curId
      (fun q => takeDamageDefault q 1 (some defId)) (fun q => rfl),
      stateCardsM_discard]
  cases hT : getPlayer (updateFirst s.players curId
      (fun q => takeDamageDefault q 1 (some defId))) curId with
  | none => exact hps₂
  | some t₂ =>
    dsimp only
    by_cases hz : t₂.currentHp = 0
    · rw [if_pos hz]
      cases hdp : handleDyingProcess o
          ⟨updateFirst s.players curId
            (fun q => takeDamageDefault q 1 (some defId)),
           s.deck.discardCard card⟩ g curId with
      | mk s₃ g₃ =>
        dsimp only
        have := handleDyingProcess_conserves o
          ⟨updateFirst s.players curId
            (fun q => takeDamageDefault q 1 (some defId)),
           s.deck.discardCard card⟩ g curId hperm
        rw [hdp] at this
        rw [this]
        exact hps₂
    · rw [if_neg hz]
      exact hps₂

/-- The alternating duel loop conserves the global multiset up to the Duel
card itself landing on the discard pile. -/
theorem duelLoopAux_conserves (o : Oracle) (card : Card)
    (hperm : ∀ l, (o.shuffle l).Perm l) :
    ∀ (fuel : Nat) (s : GState) (g : Bool) (curId defId round : Nat),
      stateCardsM (duelLoopAux o card fuel s g curId defId round).state
        = stateCardsM s + {card} := by
  intro fuel
  induction fuel with
  | zero =>
    intro s g curId defId round
    exact duelDecline_conserves o card s g curId defId hperm
  | succ n ih =>
    intro s g curId defId round
    unfold duelLoopAux
    cases hask : askUseNamedById (o.useSha curId round) CardName.sha
        s.players curId with
    | mk oc ps' =>
      cases oc with
      | none =>
        dsimp only
        exact duelDecline_conserves o card s g curId defId hperm
      | some c =>
        dsimp only
        obtain ⟨hcn, p, hgp, hcmem, hps'⟩ := askUseNamedById_some hask
        subst hps'
        rw [ih, stateCardsM_update_discard s.deck
          (fun _ => { p with handCards := p.handCards.erase c }) c hgp
          (playerCardsM_erase p c hcmem)]

/-- EquipmentManager slot replacement balance: the new slot contents plus the
displaced incumbent account for the old slot contents plus the incoming
card. -/
theorem equip_cards_balance (e : Equipment) (slot : Slot) (c : Card) :
    ((e.setSlot slot (some c)).cards : Multiset Card)
      + (((e.getSlot slot).toList : List Card) : Multiset Card)
      = (e.cards : Multiset Card) + {c} := by
  obtain ⟨w, a, mp, mm⟩ := e
  cases slot with
  | weapon =>
    cases w <;>
      · simp only [Equipment.setSlot, Equipment.getSlot, Equipment.cards,
          Option.toList, coe_append_add, Multiset.coe_singleton,
          Multiset.coe_nil]
        abel
  | armor =>
    cases a <;>
      · simp only [Equipment.setSlot, Equipment.getSlot, Equipment.cards,
          Option.toList, coe_append_add, Multiset.coe_singleton,
          Multiset.coe_nil]
        abel
  | horsePlus =>
    cases mp <;>
      · simp only [Equipment.setSlot, Equipment.getSlot, Equipment.cards,
          Option.toList, coe_append_add, Multiset.coe_singleton,
          Multiset.coe_nil]
        abel
  | horseMinus =>
    cases mm <;>
      · simp only [Equipment.setSlot, Equipment.getSlot, Equipment.cards,
          Option.toList, coe_append_add, Multiset.coe_singleton,
          Multiset.coe_nil]
        abel

/-- ShaCardHandler.handle with a living first target conserves the global
multiset up to the played Attack card landing on the discard pile. -/
theorem shaHandle_conserves (o : Oracle) (s : GState) (g : Bool)
    (curId : Nat) (card : Card) (tid : Nat) (rest : List Nat) (tp : Player)
    (hperm : ∀ l, (o.shuffle l).Perm l)
    (htp : getPlayer s.players tid = some tp) (halive : tp.isAlive = true) :
    stateCardsM (shaHandle o s g curId card (tid :: rest)).1
      = stateCardsM s + {card} := by
  unfold shaHandle
  dsimp only
  rw [htp]
  dsimp only
  rw [halive]
  simp only [Bool.not_true, Bool.false_eq_true, if_false]
  by_cases hfz : ((match getPlayer s.players curId with
      | some ap => ap.equipment.weapon.any
          (fun w => w.name == CardName.qingGangJian)
      | none => false) = false &&
    tp.equipment.armor.any (fun a => a.name == CardName.renWangDun) &&
    (card.suit == CardSuit.spades || card.suit == CardSuit.clubs)) = true
  · rw [if_pos (by
      revert hfz
      cases getPlayer s.players curId <;>
        · dsimp only
          intro hfz
          simpa [Bool.not_eq_true'] using hfz)]
    exact stateCardsM_discard s.players s.deck card
  · rw [if_neg (by
      revert hfz
      cases getPlayer s.players curId <;>
        · dsimp only
          intro hfz h
          exact hfz (by simpa [Bool.not_eq_true'] using h))]
    cases hask : askUseNamedById (o.useShan tid) CardName.shan s.players tid with
    | mk oc ps' =>
      cases oc with
      | some shanC =>
        dsimp only
        obtain ⟨_, q, hq, hcm, hps'⟩ := askUseNamedById_some hask
        subst hps'
        rw [stateCardsM_update_discard (s.deck.discardCard card)
          (fun _ => { q with handCards := q.handCards.erase shanC }) shanC hq
          (playerCardsM_erase q shanC hcm)]
        exact stateCardsM_discard s.players s.deck card
      | none =>
        dsimp only
        have hps₂ : stateCardsM ⟨updateFirst s.players tid
              (fun q => takeDamageDefault q 1 (some curId)),
              s.deck.discardCard card⟩
            = stateCardsM s + {card} := by
          rw [stateCardsM_update_any s.players (s.deck.discardCard card) tid
            (fun q => takeDamageDefault q 1 (some curId)) (fun q => rfl),
            stateCardsM_discard]
        cases hT : getPlayer (updateFirst s.players tid
            (fun q => takeDamageDefault q 1 (some curId))) tid with
        | none => exact hps₂
        | some t₂ =>
          dsimp only
          by_cases hz : t₂.currentHp = 0
          · rw [if_pos hz]
            rw [handleDyingProcess_conserves o
              ⟨updateFirst s.players tid
                (fun q => takeDamageDefault q 1 (some curId)),
               s.deck.discardCard card⟩ g tid hperm]
            exact hps₂
          · rw [if_neg hz]
            exact hps₂

/-- TaoCardHandler.handle targeting the living player himself conserves the
global multiset up to the played Heal card landing on the discard pile. -/
theorem taoHandle_conserves (o : Oracle) (s : GState) (g : Bool)
    (curId : Nat) (card : Card) (rest : List Nat) (tp : Player)
    (htp : getPlayer s.players curId = some tp)
    (halive : tp.isAlive = true) :
    stateCardsM (taoHandle o s g curId card (curId :: rest)).1
      = stateCardsM s + {card} := by
  unfold taoHandle
  dsimp only
  rw [htp]
  dsimp only
  rw [halive]
  simp only [Bool.not_true, Bool.false_eq_true, if_false, beq_self_eq_true]
  rw [stateCardsM_update_any s.players (s.deck.discardCard card) curId
    (fun q => healPlayer q 1) (fun q => rfl), stateCardsM_discard]

/-- EquipmentCardHandler.handle on a living self-target with a slot-mapped
equipment card conserves the global multiset up to the played card entering
the equipment area (and any incumbent reaching the discard pile). -/
theorem equipmentHandle_conserves (o : Oracle) (s : GState) (g : Bool)
    (curId : Nat) (card : Card) (rest : List Nat) (tp : Player) (slot : Slot)
    (htp : getPlayer s.players curId = some tp)
    (halive : tp.isAlive = true)
    (hslot : cardToSlot card.name = some slot)
    (hequip : card.isEquipment = true) :
    stateCardsM (equipmentHandle o s g curId card (curId :: rest)).1
      = stateCardsM s + {card} := by
  unfold equipmentHandle
  dsimp only
  rw [htp]
  dsimp only
  rw [halive]
  simp only [Bool.not_true, Bool.false_eq_true, if_false, beq_self_eq_true]
  unfold equipOp
  rw [hequip]
  simp only [Bool.not_true, Bool.false_eq_true, if_false]
  rw [hslot]
  dsimp only
  cases hold : tp.equipment.getSlot slot with
  | none =>
    dsimp only
    have hbal : ((tp.equipment.setSlot slot (some card)).cards : Multiset Card)
        = (tp.equipment.cards : Multiset Card) + {card} := by
      have h := equip_cards_balance tp.equipment slot card
      rw [hold] at h
      simpa using h
    have h1 := stateCardsM_update s.players s.deck curId tp
      (fun q => { q with equipment := tp.equipment.setSlot slot (some card) })
      htp
    have key : stateCardsM ⟨updateFirst s.players curId
          (fun q => { q with
            equipment := tp.equipment.setSlot slot (some card) }), s.deck⟩
          + playerCardsM tp
        = (stateCardsM s + {card}) + playerCardsM tp := by
      rw [h1]
      show stateCardsM s
          + ((tp.handCards : Multiset Card)
            + ((tp.equipment.setSlot slot (some card)).cards : Multiset Card))
        = (stateCardsM s + {card})
          + ((tp.handCards : Multiset Card)
            + (tp.equipment.cards : Multiset Card))
      rw [hbal]
      abel
    exact add_right_cancel key
  | some old =>
    dsimp only
    have hbal : ((tp.equipment.setSlot slot (some card)).cards : Multiset Card)
          + {old}
        = (tp.equipment.cards : Multiset Card) + {card} := by
      have h := equip_cards_balance tp.equipment slot card
      rw [hold] at h
      simpa using h
    have h1 := stateCardsM_update s.players (s.deck.discardCard old) curId tp
      (fun q => { q with equipment := tp.equipment.setSlot slot (some card) })
      htp
    rw [stateCardsM_discard s.players s.deck old] at h1
    have key : stateCardsM ⟨updateFirst s.players curId
          (fun q => { q with
            equipment := tp.equipment.setSlot slot (some card) }),
          s.deck.discardCard old⟩
          + playerCardsM tp
        = (stateCardsM s + {card}) + playerCardsM tp := by
      rw [h1]
      show (stateCardsM s + {old})
          + ((tp.handCards : Multiset Card)
            + ((tp.equipment.setSlot slot (some card)).cards : Multiset Card))
        = (stateCardsM s + {card})
          + ((tp.handCards : Multiset Card)
            + (tp.equipment.cards : Multiset Card))
      calc (stateCardsM s + {old})
          + ((tp.handCards : Multiset Card)
            + ((tp.equipment.setSlot slot (some card)).cards : Multiset Card))
          = stateCardsM s + (tp.handCards : Multiset Card)
            + (((tp.equipment.setSlot slot (some card)).cards : Multiset Card)
              + {old}) := by abel
        _ = stateCardsM s + (tp.handCards : Multiset Card)
            + ((tp.equipment.cards : Multiset Card) + {card}) := by rw [hbal]
        _ = (stateCardsM s + {card})
            + ((tp.handCards : Multiset Card)
              + (tp.equipment.cards : Multiset Card)) := by abel
    exact add_right_cancel key

/-- JueDouCardHandler.handle with a seated attacker, a living first target
and distinct seat ids conserves the global multiset up to the Duel card
landing on the discard pile. -/
theorem jueDouHandle_conserves (o : Oracle) (s : GState) (g : Bool)
    (curId : Nat) (card : Card) (tid : Nat) (rest : List Nat)
    (tp ap : Player) (hperm : ∀ l, (o.shuffle l).Perm l)
    (htp : getPlayer s.players tid = some tp) (halive : tp.isAlive = true)
    (hcur : getPlayer s.players curId = some ap)
    (hnd : (s.players.map Player.playerId).Nodup) :
    stateCardsM (jueDouHandle o s g curId card (tid :: rest)).1
      = stateCardsM s + {card} := by
  unfold jueDouHandle
  dsimp only
  rw [htp, hcur]
  dsimp only
  rw [halive]
  simp only [Bool.not_true, Bool.false_eq_true, if_false]
  cases hchain : askWuXieKeJi o s curId true with
  | mk eff s₁p =>
    obtain ⟨s₁, played⟩ := s₁p
    have hs₁ : stateCardsM s₁ = stateCardsM s := by
      have h := askWuXieKeJi_conserves o s curId true hnd
      rw [hchain] at h
      exact h
    cases eff with
    | false =>
      simp only [Bool.not_false, eq_self_iff_true, if_true]
      rw [stateCardsM_discard s₁.players s₁.deck card]
      rw [hs₁]
    | true =>
      simp only [Bool.not_true, Bool.false_eq_true, if_false]
      unfold duelRun
      rw [duelLoopAux_conserves o card hperm (totalSha s₁.players + 1)
        s₁ g tid curId 1]
      rw [hs₁]

/-- Playing a handled card under the amended proviso conserves the global
multiset: the card removed from the hand re-appears on the discard pile or in
an equipment slot. -/
theorem playAndResolve_conserves (o : Oracle) (s : GState) (g : Bool)
    (curId : Nat) (card : Card) (targets : List Nat)
    (hperm : ∀ l, (o.shuffle l).Perm l)
    (hv : validPlay s curId card targets) :
    stateCardsM (playAndResolve o s g curId card targets).1
      = stateCardsM s := by
  obtain ⟨⟨p, hp, hcard⟩, hkind,
    tid, rest, tp, htargets, htp, halive, hself, hslot, hduel⟩ := hv
  subst htargets
  have hs₀ : stateCardsM (playedState s curId card) + {card}
      = stateCardsM s := by
    unfold playedState
    exact stateCardsM_erase_hand s.deck card hp hcard
  unfold playAndResolve
  dsimp only
  rcases hkind with hn | hn | hn | hn
  · rw [if_pos (show (card.name == CardName.sha) = true by rw [hn]; rfl)]
    rw [shaHandle_conserves o (playedState s curId card) g curId card tid rest
      tp hperm htp halive]
    exact hs₀
  · rw [if_neg (show ¬ (card.name == CardName.sha) = true by
        rw [hn]; decide),
      if_pos (show (card.name == CardName.tao) = true by rw [hn]; rfl)]
    have htid : tid = curId := hself (Or.inl hn)
    subst htid
    rw [taoHandle_conserves o (playedState s tid card) g tid card rest tp
      htp halive]
    exact hs₀
  · rw [if_neg (show ¬ (card.name == CardName.sha) = true by
        rw [hn]; decide),
      if_neg (show ¬ (card.name == CardName.tao) = true by
        rw [hn]; decide),
      if_pos (show (card.name == CardName.jueDou) = true by rw [hn]; rfl)]
    obtain ⟨⟨ap, hap⟩, hnd⟩ := hduel hn
    rw [jueDouHandle_conserves o (playedState s curId card) g curId card tid
      rest tp ap hperm htp halive hap hnd]
    exact hs₀
  · have hb1 : ¬ (card.name == CardName.sha) = true := by
      intro h
      rw [eq_of_beq h] at hn
      exact absurd hn (by decide)
    have hb2 : ¬ (card.name == CardName.tao) = true := by
      intro h
      rw [eq_of_beq h] at hn
      exact absurd hn (by decide)
    have hb3 : ¬ (card.name == CardName.jueDou) = true := by
      intro h
      rw [eq_of_beq h] at hn
      exact absurd hn (by decide)
    have hb4 : ¬ (card.name == CardName.wuXieKeJi) = true := by
      intro h
      rw [eq_of_beq h] at hn
      exact absurd hn (by decide)
    rw [if_neg hb1, if_neg hb2, if_neg hb3, if_neg hb4,
      if_pos (show (cardTypeOf card.name == CardType.equipment) = true by
        rw [hn]; rfl)]
    have htid : tid = curId := hself (Or.inr hn)
    subst htid
    obtain ⟨slot, hslot2⟩ := Option.isSome_iff_exists.mp (hslot hn)
    rw [equipmentHandle_conserves o (playedState s tid card) g tid card rest
      tp slot htp halive hslot2
      (by unfold Card.isEquipment; rw [hn]; rfl)]
    exact hs₀

/-- Claim C1 (amended): the modelled engine operations conserve the multiset
of card instances spread over the draw pile, the discard pile, the hands and
the equipment slots — no duplication and no loss — for: drawing to a seated
hand, the discard phase, the dying process, death with its rewards and
penalties, the negation chain under distinct seat ids, and playing an
Attack, Heal, Duel or equipment card whenever the handler receives a living
valid target (the validPlay proviso).  Without that proviso a played card is
dropped from every container, as the counterexample shows. -/
theorem C1_conservation (o : Oracle) (s : GState) (g : Bool)
    (hperm : ∀ l, (o.shuffle l).Perm l) :
    (∀ pid n, (∃ p, getPlayer s.players pid = some p) →
      stateCardsM (drawCardsToHand o s pid n) = stateCardsM s) ∧
    (∀ pid, stateCardsM (discardPhase o s pid) = stateCardsM s) ∧
    (∀ pid, stateCardsM (handleDyingProcess o s g pid).1 = stateCardsM s) ∧
    (∀ pid, stateCardsM (dieOp o s pid) = stateCardsM s) ∧
    (∀ uid pol, (s.players.map Player.playerId).Nodup →
      stateCardsM (askWuXieKeJi o s uid pol).2.1 = stateCardsM s) ∧
    (∀ curId card targets, validPlay s curId card targets →
      stateCardsM (playAndResolve o s g curId card targets).1
        = stateCardsM s) := by
  refine ⟨?_, ?_, ?_, ?_, ?_, ?_⟩
  · rintro pid n ⟨p, hp⟩
    exact drawCardsToHand_conserves o s pid n p hperm hp
  · intro pid
    exact discardPhase_conserves o s pid
  · intro pid
    exact handleDyingProcess_conserves o s g pid hperm
  · intro pid
    exact dieOp_conserves o s pid hperm
  · intro uid pol hnd
    exact askWuXieKeJi_conserves o s uid pol hnd
  · intro curId card targets hv
    exact playAndResolve_conserves o s g curId card targets hperm hv

/-- Claim C1 counterexample: ShaCardHandler.handle returns early when its
target list is empty, but Player.play_card_default has already removed the
card from the hand, so the played Attack card leaves every container — the
global multiset shrinks by exactly that card. -/
theorem C1_counterexample :
    stateCardsM (playAndResolve alwaysYesOracle c1state false 0 c1sha []).1
        + ({c1sha} : Multiset Card)
      = stateCardsM c1state ∧
    stateCardsM (playAndResolve alwaysYesOracle c1state false 0 c1sha []).1
      ≠ stateCardsM c1state := by
  decide

/-- Concrete instantiation of the amended conservation theorem: on the
two-player scene a draw, a discard phase and an Attack played at a living
target all conserve the global multiset. -/
theorem C1_conservation_witness :
    stateCardsM (drawCardsToHand alwaysYesOracle c1state 0 2)
        = stateCardsM c1state ∧
    stateCardsM (discardPhase alwaysYesOracle c1state 0)
        = stateCardsM c1state ∧
    stateCardsM (playAndResolve alwaysYesOracle c1state false 0 c1sha [1]).1
        = stateCardsM c1state := by
  obtain ⟨h1, h2, h3, h4, h5, h6⟩ :=
    C1_conservation alwaysYesOracle c1state false
      (fun l => by exact List.Perm.refl l)
  refine ⟨h1 0 2 ⟨_, rfl⟩, h2 0, h6 0 c1sha [1] ?_⟩
  exact ⟨⟨_, rfl, by decide⟩, Or.inl rfl,
    1, [], _, rfl, rfl, rfl,
    fun h => absurd h (by decide),
    fun h => absurd h (by decide),
    fun h => absurd h (by decide)⟩

theorem C5_duel_witness :
    (getPlayer c5state.players 1).isSome ∧
    ((duelRun alwaysYesOracle c5card c5state false 1 0).loserId
      = if (duelRun alwaysYesOracle c5card c5state false 1 0).shaPlayed.length
          % 2 = 0 then 1 else 0) ∧
    (∀ c ∈ (duelRun alwaysYesOracle c5card c5state false 1 0).shaPlayed,
      c.name = CardName.sha) := by
  refine ⟨by decide, ?_, ?_⟩
  · exact (C5_duel alwaysYesOracle c5card c5state false 1 0
      { playerId := 1, identity := .rebel, status := .alive, currentHp := 4,
        maxHp := 4, handCards := [Card.mk .spades 9 .sha],
        equipment := .empty, shaUsedThisTurn := false,
        lastDamageSource := none }
      { playerId := 0, identity := .lord, status := .alive, currentHp := 4,
        maxHp := 5, handCards := [], equipment := .empty,
        shaUsedThisTurn := false, lastDamageSource := none }
      (by decide) (by decide) (by decide)).1.1
  · exact (C5_duel alwaysYesOracle c5card c5state false 1 0
      { playerId := 1, identity := .rebel, status := .alive, currentHp := 4,
        maxHp := 4, handCards := [Card.mk .spades 9 .sha],
        equipment := .empty, shaUsedThisTurn := false,
        lastDamageSource := none }
      { playerId := 0, identity := .lord, status := .alive, currentHp := 4,
        maxHp := 5, handCards := [], equipment := .empty,
        shaUsedThisTurn := false, lastDamageSource := none }
      (by decide) (by decide) (by decide)).1.2.1

/-- Claim C6: when an actor's hp has reached 0 the dying process queries that
actor, and only that actor, for a Heal card: if one is offered it leaves the
hand, is discarded, and the actor's hp becomes exactly 1 with no death and
every other actor untouched; otherwise the actor's status becomes dead and
all of his hand cards and equipment cards are moved to the discard pile. -/
theorem C6_dying_process (o : Oracle) (s : GState) (g : Bool) (dyingId : Nat)
    (p : Player) (hp : getPlayer s.players dyingId = some p)
    (hhp : p.currentHp = 0) (hmax : 1 ≤ p.maxHp)
    (halive : p.status = PlayerStatus.alive) :
    (∀ t rest,
      p.handCards.filter (fun c => c.name == CardName.tao) = t :: rest →
      o.useTao p.playerId = true →
      ∃ p', getPlayer (handleDyingProcess o s g dyingId).1.players dyingId
          = some p' ∧
        p'.currentHp = 1 ∧ p'.status = PlayerStatus.alive ∧
        (handleDyingProcess o s g dyingId).1.deck.discardPile
          = s.deck.discardPile ++ [t] ∧
        (handleDyingProcess o s g dyingId).1.deck.cards = s.deck.cards ∧
        (handleDyingProcess o s g dyingId).2 = g ∧
        ∀ qid, qid ≠ dyingId →
          getPlayer (handleDyingProcess o s g dyingId).1.players qid
            = getPlayer s.players qid) ∧
    ((p.handCards.filter (fun c => c.name == CardName.tao) = [] ∨
        o.useTao p.playerId = false) →
      ∃ p', getPlayer (handleDyingProcess o s g dyingId).1.players dyingId
          = some p' ∧
        p'.status = PlayerStatus.dead ∧ p'.handCards = [] ∧
        p'.equipment = Equipment.empty ∧
        ∀ c ∈ p.handCards ++ p.equipment.cards,
          c ∈ (handleDyingProcess o s g dyingId).1.deck.discardPile) := by
  have hpid : p.playerId = dyingId := getPlayer_id hp
  have hnot : ¬ p.currentHp > 0 := by rw [hhp]; exact lt_irrefl 0
  constructor
  · intro t rest hfil htao
    have hstep : handleDyingProcess o s g dyingId =
        ({ players := updateFirst
            (updateFirst s.players dyingId
              (fun _ => { p with handCards := p.handCards.erase t }))
            dyingId (fun q => healPlayer q 1),
           deck := s.deck.discardCard t }, g) := by
      unfold handleDyingProcess askUseNamed
      rw [hp]
      dsimp only
      rw [if_neg hnot, hfil, htao]
      rfl
    rw [hstep]
    dsimp only
    have hg := getPlayer_updateFirst_self (fun q => healPlayer q 1)
      (fun x hx => hx)
      (getPlayer_updateFirst_self
        (fun _ => { p with handCards := p.handCards.erase t })
        (fun x _ => hpid) hp)
    refine ⟨_, hg, ?_, halive, rfl, rfl, rfl, ?_⟩
    · show min p.maxHp (p.currentHp + 1) = 1
      rw [hhp]
      omega
    · intro qid hqid
      rw [getPlayer_updateFirst_ne (fun q => healPlayer q 1)
          (fun x hx => hx) hqid,
        getPlayer_updateFirst_ne
          (fun _ => { p with handCards := p.handCards.erase t })
          (fun x _ => hpid) hqid]
  · intro hdecline
    have hstep : handleDyingProcess o s g dyingId =
        (dieOp o s dyingId,
         g || gameOver (dieOp o s dyingId).players) := by
      unfold handleDyingProcess
      rw [hp]
      dsimp only
      rw [if_neg hnot, askUseNamed_none hdecline]
    rw [hstep]
    dsimp only
    exact dieOp_spec o s dyingId p hp

theorem C2_negation_chain_witness :
    (c2state.players.map Player.playerId).Nodup ∧
    ((askWuXieKeJi alwaysYesOracle c2state 0 true).1
      = Bool.xor
          ((askWuXieKeJi alwaysYesOracle c2state 0 true).2.2.length % 2 == 1)
          true ∧
     (askWuXieKeJi alwaysYesOracle c2state 0 true).2.1.deck.discardPile
      = c2state.deck.discardPile
          ++ (askWuXieKeJi alwaysYesOracle c2state 0 true).2.2) :=
  ⟨by decide,
   let h := C2_negation_chain alwaysYesOracle c2state 0 true (by decide)
   ⟨h.1, h.2.1⟩⟩

theorem C6_dying_process_witness :
    (getPlayer c6state.players 0).isSome ∧
    ∃ p', getPlayer
        (handleDyingProcess alwaysYesOracle c6state false 0).1.players 0
        = some p' ∧ p'.currentHp = 1 ∧ p'.status = PlayerStatus.alive := by
  refine ⟨by decide, ?_⟩
  have h := C6_dying_process alwaysYesOracle c6state false 0
    { playerId := 0, identity := .lord, status := .alive, currentHp := 0,
      maxHp := 4, handCards := [Card.mk .hearts 12 .tao],
      equipment := .empty, shaUsedThisTurn := false, lastDamageSource := none }
    (by decide) (by decide) (by decide) (by decide)
  obtain ⟨p', hgp, hhp1, hal, -⟩ :=
    h.1 (Card.mk .hearts 12 .tao) [] (by decide) (by decide)
  exact ⟨p', hgp, hhp1, hal⟩

theorem C10_attackable_amended_witness :
    (1 : Nat) ≠ 0 ∧ 2 ≤ (c10roster.filter Player.isAlive).length ∧
    (1 ∈ (getTargets c10roster 0).attackable ↔
      (1 ∈ ((c10roster.filter
          (fun p => p.isAlive && !(p.playerId == 0))).map Player.playerId) ∧
       ∃ dv, amendedSeatDistance c10roster 0 1 = some dv ∧
         dv ≤ getAttackRange c10roster 0)) :=
  ⟨by decide, by decide,
   C10_attackable_amended c10roster 0 1 (by decide) (by decide)
     ⟨c10roster.get ⟨0, by decide⟩, by decide, by decide⟩⟩

end ZGS
